import Mathlib

/-!
Rollout API (`v1alpha1/types.go`): duration resolver, pause set, phase
priority and the empty-template test.

A shallow embedding of `RolloutPause.DurationSeconds`, `DurationFromInt`,
`DurationFromString`, `RolloutSpec.EmptyTemplate` and of the library routines
the resolver calls
(`intstr.FromInt`, `intstr.FromString`, `strconv.ParseInt`,
`time.ParseDuration`, `Duration.Seconds`, the numeric conversions).

* A Go string is a sequence of bytes, modelled as `List Nat`.
* Machine integers are `Nat` / `Int` with explicit wrap-around.
* A `float64` is modelled exactly: a finite value is `m * 2 ^ e`, and every
  operation rounds the exact result to the nearest double, ties to even.
* Converting a float that does not fit the integer type is
  implementation-dependent in Go; that result is a parameter (`Platform`).
-/

namespace v1alpha1

/-! ## Bytes, strings and machine integers -/

/-- A Go string is a sequence of bytes. -/
abbrev GoString := List Nat

/-- The bytes of an ASCII literal. -/
def ascii (s : String) : GoString := s.toList.map Char.toNat

/-- Two's complement wrap of an integer into `int32`. -/
def wrapInt32 (x : Int) : Int := (x + 2 ^ 31) % 2 ^ 32 - 2 ^ 31

/-- Two's complement wrap of an integer into `int64`. -/
def wrapInt64 (x : Int) : Int := (x + 2 ^ 63) % 2 ^ 64 - 2 ^ 63

/-- Wrap of a natural number into `uint64`. -/
def wrapUint64 (x : Nat) : Nat := x % 2 ^ 64

/-! ## `k8s.io/apimachinery/pkg/util/intstr` -/

namespace intstr

/-- The tag `intstr.Int` of an `IntOrString` (Go: `Int Type = iota`). -/
def IntType : Int := 0

/-- The tag `intstr.String` of an `IntOrString`. -/
def StringType : Int := 1

/-- The Go struct `IntOrString{Type, IntVal, StrVal}`; the tag is an `int64`
    in Go, so tags other than the two named ones exist. -/
structure IntOrString where
  Typ : Int
  IntVal : Int
  StrVal : GoString
deriving DecidableEq, Repr

/-- The Go function `FromInt`: the value is converted with `int32(val)`. -/
def FromInt (val : Int) : IntOrString :=
  { Typ := IntType, IntVal := wrapInt32 val, StrVal := [] }

/-- The Go function `FromString`. -/
def FromString (val : GoString) : IntOrString :=
  { Typ := StringType, IntVal := 0, StrVal := val }

end intstr

/-! ## `strconv.ParseInt` -/

namespace strconv

/-- The two error kinds of `strconv` that a base in `2..36` can produce,
    plus the errors for a bad base or bit size. -/
inductive NumErr where
  | ErrSyntax
  | ErrRange
  | ErrBase
  | ErrBitSize
deriving DecidableEq, Repr

/-- The Go helper `lower(c) = c | ('x' - 'X')`. -/
def lower (c : Nat) : Nat := c ||| 32

/-- The digit value of a byte in the loop of `ParseUint`
    (`none` is the `default:` case, a syntax error). The case of an
    underscore applies to base 0 only. -/
def digitVal (c : Nat) : Option Nat :=
  if 48 ≤ c ∧ c ≤ 57 then some (c - 48)
  else if 97 ≤ lower c ∧ lower c ≤ 122 then some (lower c - 97 + 10)
  else none

/-- The loop of `ParseUint` over the bytes of the string, `n` being the
    value accumulated so far (a `uint64`). -/
def parseUintLoop (base cutoff maxVal : Nat) : GoString → Nat → Nat × Option NumErr
  | [], n => (n, none)
  | c :: cs, n =>
    match digitVal c with
    | none => (0, some NumErr.ErrSyntax)
    | some d =>
      if d ≥ base then (0, some NumErr.ErrSyntax)
      else if n ≥ cutoff then (maxVal, some NumErr.ErrRange)
      else
        let n0 := wrapUint64 (n * base)
        let n1 := wrapUint64 (n0 + d)
        if n1 < n0 ∨ n1 > maxVal then (maxVal, some NumErr.ErrRange)
        else parseUintLoop base cutoff maxVal cs n1

/-- The Go function `strconv.ParseUint` for an explicit base `2..36`
    (base 0, which reads a prefix from the string, is reported like any
    other base outside `2..36`; the code under study passes 10). -/
def ParseUint (s : GoString) (base bitSize : Nat) : Nat × Option NumErr :=
  if s = [] then (0, some NumErr.ErrSyntax)
  else if ¬ (2 ≤ base ∧ base ≤ 36) then (0, some NumErr.ErrBase)
  else if bitSize > 64 then (0, some NumErr.ErrBitSize)
  else
    let bits := if bitSize = 0 then 64 else bitSize
    let cutoff := (2 ^ 64 - 1) / base + 1
    let maxVal := 2 ^ bits - 1
    parseUintLoop base cutoff maxVal s 0

/-- The Go function `strconv.ParseInt`: value and error. -/
def ParseInt (s : GoString) (base bitSize : Nat) : Int × Option NumErr :=
  match s with
  | [] => (0, some NumErr.ErrSyntax)
  | c :: rest =>
    let neg : Bool := decide (c = 45)
    let s1 := if c = 43 ∨ c = 45 then rest else s
    let r := ParseUint s1 base bitSize
    if r.2 ≠ none ∧ r.2 ≠ some NumErr.ErrRange then (0, r.2)
    else
      let bits := if bitSize = 0 then 64 else bitSize
      let cutoff : Nat := 2 ^ (bits - 1)
      if neg = false ∧ r.1 ≥ cutoff then ((cutoff : Int) - 1, some NumErr.ErrRange)
      else if neg = true ∧ r.1 > cutoff then (-(cutoff : Int), some NumErr.ErrRange)
      else (if neg then -(r.1 : Int) else (r.1 : Int), none)

end strconv

/-! ## `float64`: exact model with round-to-nearest, ties-to-even -/

/-- A `float64` value: a finite `m * 2 ^ e`, an infinity with its sign, or
    NaN. The sign of a zero is not tracked (it only shows in a division by
    zero, which the code under study never performs). -/
inductive F64 where
  | fin (m : Int) (e : Int)
  | inf (neg : Bool)
  | nan
deriving DecidableEq, Repr

namespace F64

/-- The quotient `num / den` rounded to the nearest integer, ties to even. -/
def roundHalfEven (num den : Nat) : Nat :=
  let k := num / den
  let r := num % den
  if 2 * r < den then k
  else if den < 2 * r then k + 1
  else if k % 2 = 0 then k else k + 1

/-- The loop of `ilog2`: halve until below 2, at most `fuel` times. -/
def ilog2Loop : Nat → Nat → Nat
  | 0, _ => 0
  | fuel + 1, n => if n < 2 then 0 else ilog2Loop fuel (n / 2) + 1

/-- The binary logarithm `⌊log₂ n⌋` of a positive number (`n` halvings are
    more than enough). -/
def ilog2 (n : Nat) : Nat := ilog2Loop n n

/-- The binary exponent `⌊log₂ (p / q)⌋` of a positive quotient. -/
def ilog2Ratio (p q : Nat) : Int :=
  let l : Int := (ilog2 p : Int) - (ilog2 q : Int)
  if (if 0 ≤ l then q * 2 ^ l.toNat ≤ p else q ≤ p * 2 ^ (-l).toNat) then l else l - 1

/-- The double nearest to the non-negative quotient `p / q` (`q > 0`):
    53 significant bits, least exponent `-1074` (subnormals), overflow to
    infinity when the rounded value reaches `2 ^ 1024`. -/
def roundMag (p q : Nat) : F64 :=
  if p = 0 then fin 0 0
  else
    let ue : Int := max (ilog2Ratio p q - 52) (-1074)
    let m : Nat :=
      if 0 ≤ ue then roundHalfEven p (q * 2 ^ ue.toNat)
      else roundHalfEven (p * 2 ^ (-ue).toNat) q
    if 1024 ≤ (ilog2 m : Int) + ue then inf false else fin (m : Int) ue

/-- The double nearest to the quotient `n / d` (`d > 0`). -/
def roundQ (n : Int) (d : Nat) : F64 :=
  match roundMag n.natAbs d with
  | fin m e => fin (if n < 0 then -m else m) e
  | inf _ => inf (decide (n < 0))
  | nan => nan

/-- The double nearest to `m * 2 ^ e`. -/
def roundDyadic (m e : Int) : F64 :=
  if 0 ≤ e then roundQ (m * 2 ^ e.toNat) 1 else roundQ m (2 ^ (-e).toNat)

/-- The conversion `float64(n)` of an integer. -/
def ofInt (n : Int) : F64 := roundQ n 1

/-- The product of two doubles. -/
def mul : F64 → F64 → F64
  | fin m1 e1, fin m2 e2 => roundDyadic (m1 * m2) (e1 + e2)
  | fin m _, inf b => if m = 0 then nan else inf (xor (decide (m < 0)) b)
  | inf a, fin m _ => if m = 0 then nan else inf (xor a (decide (m < 0)))
  | inf a, inf b => inf (xor a b)
  | nan, _ => nan
  | _, nan => nan

/-- The quotient of two doubles. -/
def div : F64 → F64 → F64
  | fin m1 e1, fin m2 e2 =>
    if m2 = 0 then (if m1 = 0 then nan else inf (decide (m1 < 0)))
    else
      let sgn : Int := if m2 < 0 then -1 else 1
      if 0 ≤ e1 - e2 then roundQ (sgn * m1 * 2 ^ (e1 - e2).toNat) m2.natAbs
      else roundQ (sgn * m1) (m2.natAbs * 2 ^ (e2 - e1).toNat)
  | fin _ _, inf _ => fin 0 0
  | inf a, fin m _ => inf (xor a (decide (m < 0)))
  | inf _, inf _ => nan
  | nan, _ => nan
  | _, nan => nan

/-- The sum of two doubles. -/
def add : F64 → F64 → F64
  | fin m1 e1, fin m2 e2 =>
    let e := min e1 e2
    roundDyadic (m1 * 2 ^ (e1 - e).toNat + m2 * 2 ^ (e2 - e).toNat) e
  | fin _ _, inf b => inf b
  | inf a, fin _ _ => inf a
  | inf a, inf b => if a = b then inf a else nan
  | nan, _ => nan
  | _, nan => nan

/-- The integer part of a finite double (truncation towards zero). -/
def trunc (m e : Int) : Int :=
  if 0 ≤ e then m * 2 ^ e.toNat else Int.tdiv m (2 ^ (-e).toNat)

end F64

/-- What Go leaves to the implementation: the result of converting a
    floating-point value to an integer type that cannot represent it. -/
structure Platform where
  int32OutOfRange : F64 → Int
  uint64OutOfRange : F64 → Nat

/-- The conversion `int32(x)` of a `float64`. -/
def int32OfF64 (pf : Platform) (x : F64) : Int :=
  match x with
  | F64.fin m e =>
    let t := F64.trunc m e
    if -(2 ^ 31) ≤ t ∧ t < 2 ^ 31 then t else wrapInt32 (pf.int32OutOfRange x)
  | _ => wrapInt32 (pf.int32OutOfRange x)

/-- The conversion `uint64(x)` of a `float64`. -/
def uint64OfF64 (pf : Platform) (x : F64) : Nat :=
  match x with
  | F64.fin m e =>
    let t := F64.trunc m e
    if 0 ≤ t ∧ t < 2 ^ 64 then t.toNat else wrapUint64 (pf.uint64OutOfRange x)
  | _ => wrapUint64 (pf.uint64OutOfRange x)

/-! ## Package `time`: `ParseDuration` and `Duration.Seconds` -/

namespace time

/-- The Go helper `leadingInt`: consumes the leading `[0-9]*`, `x` being the
    value read so far; `none` is the overflow error `errLeadingInt`. -/
def leadingInt : GoString → Nat → Option (Nat × GoString)
  | [], x => some (x, [])
  | c :: cs, x =>
    if c < 48 ∨ c > 57 then some (x, c :: cs)
    else if x > 2 ^ 63 / 10 then none
    else
      let x1 := wrapUint64 (x * 10 + c - 48)
      if x1 > 2 ^ 63 then none else leadingInt cs x1

/-- The Go helper `leadingFraction`: consumes the leading `[0-9]*` after a
    period; digits that would overflow are read and dropped. -/
def leadingFraction : GoString → Nat → F64 → Bool → Nat × F64 × GoString
  | [], x, scale, _ => (x, scale, [])
  | c :: cs, x, scale, overflow =>
    if c < 48 ∨ c > 57 then (x, scale, c :: cs)
    else if overflow then leadingFraction cs x scale overflow
    else if x > (2 ^ 63 - 1) / 10 then leadingFraction cs x scale true
    else
      let y := wrapUint64 (x * 10 + c - 48)
      if y > 2 ^ 63 then leadingFraction cs x scale true
      else leadingFraction cs y (F64.mul scale (F64.ofInt 10)) overflow

/-- The Go table `unitMap`, in nanoseconds; the two spellings of the micro
    sign are the UTF-8 bytes of U+00B5 and U+03BC. -/
def unitMap (u : GoString) : Option Nat :=
  if u = [110, 115] then some 1
  else if u = [117, 115] then some 1000
  else if u = [194, 181, 115] then some 1000
  else if u = [206, 188, 115] then some 1000
  else if u = [109, 115] then some 1000000
  else if u = [115] then some 1000000000
  else if u = [109] then some 60000000000
  else if u = [104] then some 3600000000000
  else none

/-- The test that ends a unit: a period or a digit. -/
def unitEnd (c : Nat) : Bool := decide (c = 46 ∨ (48 ≤ c ∧ c ≤ 57))

/-- The step "consume `(\.[0-9]*)?`" of `ParseDuration`: the fraction `f`,
    its `scale`, whether a digit followed the period (`post`), and the rest
    of the string. -/
def parseFraction (s1 : GoString) : Nat × F64 × Bool × GoString :=
  match s1 with
  | [] => (0, F64.ofInt 1, false, s1)
  | c :: t =>
    if c = 46 then
      let r := leadingFraction t 0 (F64.ofInt 1) false
      (r.1, r.2.1, decide (t.length ≠ r.2.2.length), r.2.2)
    else (0, F64.ofInt 1, false, s1)

/-- One round of the loop `for s != ""` of `ParseDuration` on a non-empty
    rest `s`, `d` being the nanoseconds summed so far (a `uint64`): a number,
    an optional fraction and a unit are consumed; the result is the rest of
    the string and the new sum, or `none` for an error return. -/
def parseDurationRound (pf : Platform) (s : GoString) (d : Nat) : Option (GoString × Nat) :=
  match s with
  | [] => none
  | c :: cs =>
    -- the next character must be [0-9.]
    if ¬ (c = 46 ∨ (48 ≤ c ∧ c ≤ 57)) then none
    else
      match leadingInt (c :: cs) 0 with
      | none => none
      | some (v, s1) =>
        let pre : Bool := decide ((c :: cs).length ≠ s1.length)
        let fr := parseFraction s1
        let f := fr.1
        let scale := fr.2.1
        let post := fr.2.2.1
        let s2 := fr.2.2.2
        if pre = false ∧ post = false then none
        else
          let u := s2.takeWhile (fun b => !unitEnd b)
          let s3 := s2.dropWhile (fun b => !unitEnd b)
          if u = [] then none
          else
            match unitMap u with
            | none => none
            | some unit =>
              if v > 2 ^ 63 / unit then none
              else
                let v1 := wrapUint64 (v * unit)
                let v2 :=
                  if f > 0 then
                    wrapUint64 (v1 + uint64OfF64 pf
                      (F64.mul (F64.ofInt f) (F64.div (F64.ofInt unit) scale)))
                  else v1
                if f > 0 ∧ v2 > 2 ^ 63 then none
                else
                  let d1 := wrapUint64 (d + v2)
                  if d1 > 2 ^ 63 then none else some (s3, d1)

/-- The loop `for s != ""` of `ParseDuration`. Each round consumes at least
    one byte, so as many rounds as the string has bytes are enough
    (`parseDurationLoop_fuel`); the case of no fuel left on a non-empty rest
    is never reached from `ParseDuration`. -/
def parseDurationLoop (pf : Platform) : Nat → GoString → Nat → Option Nat
  | _, [], d => some d
  | 0, _ :: _, _ => none
  | fuel + 1, c :: cs, d =>
    match parseDurationRound pf (c :: cs) d with
    | none => none
    | some (s3, d1) => parseDurationLoop pf fuel s3 d1

/-- The Go function `time.ParseDuration` (the `uint64` implementation of
    current Go releases): the duration in nanoseconds (an `int64`), or `none`
    for an error. -/
def ParseDuration (pf : Platform) (s : GoString) : Option Int :=
  let neg : Bool :=
    match s with
    | c :: _ => decide (c = 45)
    | [] => false
  let s1 : GoString :=
    match s with
    | c :: t => if c = 45 ∨ c = 43 then t else s
    | [] => s
  if s1 = [48] then some 0
  else if s1 = [] then none
  else
    match parseDurationLoop pf s1.length s1 0 with
    | none => none
    | some d =>
      if neg then some (wrapInt64 (-(wrapInt64 (d : Int))))
      else if d > 2 ^ 63 - 1 then none
      else some (wrapInt64 (d : Int))

/-- The Go method `Duration.Seconds`:
    `float64(d / Second) + float64(d % Second) / 1e9`. -/
def Seconds (d : Int) : F64 :=
  let sec := Int.tdiv d 1000000000
  let nsec := Int.tmod d 1000000000
  F64.add (F64.ofInt sec) (F64.div (F64.ofInt nsec) (F64.ofInt 1000000000))

end time

/-! ## `RolloutPause` -/

/-- The Go struct `RolloutPause`; a nil `Duration` is `none`. -/
structure RolloutPause where
  Duration : Option intstr.IntOrString
deriving DecidableEq, Repr

/-- The Go method `RolloutPause.DurationSeconds`. -/
def RolloutPause.DurationSeconds (pf : Platform) (p : RolloutPause) : Int :=
  match p.Duration with
  | some dur =>
    if dur.Typ = intstr.StringType then
      let r := strconv.ParseInt dur.StrVal 10 32
      if r.2 ≠ none then
        match time.ParseDuration pf dur.StrVal with
        | none => -1
        | some d => int32OfF64 pf (time.Seconds d)
      else
        -- special case where no unit was specified
        wrapInt32 r.1
    else dur.IntVal
  | none => 0

/-- The Go function `DurationFromInt`. -/
def DurationFromInt (i : Int) : Option intstr.IntOrString :=
  some (intstr.FromInt i)

/-- The Go function `DurationFromString`. -/
def DurationFromString (s : GoString) : Option intstr.IntOrString :=
  some (intstr.FromString s)

/-- A platform that answers every out-of-range conversion with the
    "integer indefinite" value of the x86 conversion instructions. -/
def Platform.indefinite : Platform :=
  { int32OutOfRange := fun _ => -2147483648
    uint64OutOfRange := fun _ => 9223372036854775808 }

/-! ## The canonical decimal text of an integer (`strconv.Itoa`) -/

/-- A byte that is a decimal digit. -/
def isDigit (c : Nat) : Prop := 48 ≤ c ∧ c ≤ 57

instance (c : Nat) : Decidable (isDigit c) := by unfold isDigit; infer_instance

/-- The number read from a digit string, continuing from the value `a`. -/
def decimalAcc (a : Nat) (ds : GoString) : Nat :=
  ds.foldl (fun x c => x * 10 + (c - 48)) a

/-- The number denoted by a digit string. -/
def decimalValue (ds : GoString) : Nat := decimalAcc 0 ds

/-- The decimal digits of `n`, most significant first (`fuel` bounds the
    number of digits). -/
def natDigits : Nat → Nat → GoString
  | 0, _ => []
  | fuel + 1, n => if n < 10 then [48 + n] else natDigits fuel (n / 10) ++ [48 + n % 10]

/-- The canonical base-10 text of a natural number. -/
def FormatUint (n : Nat) : GoString := natDigits (n + 1) n

/-- The canonical base-10 text of an integer (`strconv.Itoa`). -/
def Itoa (n : Int) : GoString :=
  if n < 0 then 45 :: FormatUint n.natAbs else FormatUint n.natAbs

/-! ## Pause condition set and phase evaluator -/

/-- The Go type `PauseReason` (a string). -/
abbrev PauseReason := String

/-- The Go constant `PauseReasonInconclusiveAnalysis`. -/
def PauseReasonInconclusiveAnalysis : PauseReason := "InconclusiveAnalysisRun"

/-- The Go constant `PauseReasonCanaryPauseStep`. -/
def PauseReasonCanaryPauseStep : PauseReason := "CanaryPauseStep"

/-- The Go struct `PauseCondition`; the start time is a time stamp. -/
structure PauseCondition where
  Reason : PauseReason
  StartTime : Int
deriving DecidableEq, Repr

/-- The Go type `RolloutPhase` (a string). -/
abbrev RolloutPhase := String

/-- The Go constant `RolloutPhaseHealthy`. -/
def RolloutPhaseHealthy : RolloutPhase := "Healthy"

/-- The Go constant `RolloutPhaseDegraded`. -/
def RolloutPhaseDegraded : RolloutPhase := "Degraded"

/-- The Go constant `RolloutPhaseProgressing`. -/
def RolloutPhaseProgressing : RolloutPhase := "Progressing"

/-- The Go constant `RolloutPhasePaused`. -/
def RolloutPhasePaused : RolloutPhase := "Paused"

/-- The fields of the Go struct `RolloutStatus` that the pause set and the
    phase evaluator read. -/
structure RolloutStatus where
  PauseConditions : List PauseCondition
  ControllerPause : Bool
  UpdatedReplicas : Int
  AvailableReplicas : Int
  CurrentStepIndex : Option Int
  ObservedGeneration : Int
deriving DecidableEq, Repr

/-- Modelled from the spec: the operation `IsPaused()` of the pause
    condition set, which `types.go` declares the fields for but does not
    define: "true iff the set is non-empty OR the controller-pause flag is
    set". -/
def RolloutStatus.IsPaused (st : RolloutStatus) : Bool :=
  decide (0 < st.PauseConditions.length) || st.ControllerPause

/-- The inputs of the phase evaluator besides the status: what validation
    found upstream, the generation of the object, the desired replicas, the
    number of strategy steps, and whether a replica creation or deletion
    failure was observed. -/
structure PhaseInput where
  invalidSpec : Bool
  generation : Int
  desiredReplicas : Int
  stepCount : Int
  replicaFailure : Bool
deriving DecidableEq, Repr

/-- Modelled from the spec: rules 1 to 5 of the phase evaluator, which is
    not defined in `types.go`, "first match wins". -/
def basePhase (x : PhaseInput) (st : RolloutStatus) : RolloutPhase :=
  if x.invalidSpec then RolloutPhaseDegraded
  else if st.ObservedGeneration < x.generation then RolloutPhaseProgressing
  else if st.IsPaused then RolloutPhasePaused
  else if st.UpdatedReplicas < x.desiredReplicas ∨ st.AvailableReplicas < x.desiredReplicas
      ∨ ¬ (x.stepCount = 0 ∨ st.CurrentStepIndex = some x.stepCount) then RolloutPhaseProgressing
  else RolloutPhaseHealthy

/-- Modelled from the spec: the phase evaluator with rule 6, an observed
    replica failure reads `Degraded`, "overriding all but explicit Paused
    when concurrently true". -/
def computePhase (x : PhaseInput) (st : RolloutStatus) : RolloutPhase :=
  if x.replicaFailure ∧ basePhase x st ≠ RolloutPhasePaused then RolloutPhaseDegraded
  else basePhase x st

/-! ## `RolloutSpec` and its pod template -/

/-- A Go `map[string]string`, as the list of its entries (the keys are
    distinct); `len` of the map is the length of the list, and a nil map has
    no entries. -/
abbrev StringMap := List (GoString × GoString)

/-- The fields of the Go struct `metav1.ObjectMeta` that a pod template
    carries by hand. -/
structure ObjectMeta where
  Name : GoString
  GenerateName : GoString
  Namespace : GoString
  Labels : StringMap
  Annotations : StringMap
deriving DecidableEq, Repr

/-- A container of a pod spec: its name and its image. -/
structure Container where
  Name : GoString
  Image : GoString
deriving DecidableEq, Repr

/-- The part of the Go struct `corev1.PodSpec` that tells an empty pod spec
    from one with containers. -/
structure PodSpec where
  Containers : List Container
deriving DecidableEq, Repr

/-- The Go struct `corev1.PodTemplateSpec`: the embedded object metadata
    and the pod spec. -/
structure PodTemplateSpec where
  ObjectMeta : ObjectMeta
  Spec : PodSpec
deriving DecidableEq, Repr

/-- The Go struct `RolloutSpec`; a nil pointer is `none`, the selector is
    the label map of a `metav1.LabelSelector`, and of the strategy only the
    presence of the canary strategy is kept. -/
structure RolloutSpec where
  TemplateResolvedFromRef : Bool
  SelectorResolvedFromRef : Bool
  Replicas : Option Int
  Selector : Option StringMap
  Template : PodTemplateSpec
  MinReadySeconds : Int
  StrategyCanary : Bool
  RevisionHistoryLimit : Option Int
  Paused : Bool
deriving DecidableEq, Repr

/-- The Go method `RolloutSpec.EmptyTemplate`; `s.Template.Labels` is the
    field promoted from the embedded object metadata. -/
def RolloutSpec.EmptyTemplate (s : RolloutSpec) : Bool :=
  if s.Template.ObjectMeta.Labels.length > 0 then false
  else if s.Template.ObjectMeta.Annotations.length > 0 then false
  else true

/-! ## Theorems: the three-way fallback of `DurationSeconds` -/

/-- An absent duration resolves to zero. -/
theorem durationSeconds_nil (pf : Platform) :
    RolloutPause.DurationSeconds pf { Duration := none } = 0 := rfl

/-- A duration that is not string-typed resolves to its stored integer. -/
theorem durationSeconds_int (pf : Platform) (dur : intstr.IntOrString)
    (ht : dur.Typ ≠ intstr.StringType) :
    RolloutPause.DurationSeconds pf { Duration := some dur } = dur.IntVal := by
  simp [RolloutPause.DurationSeconds, ht]

/-- A string that parses as an integer resolves to that integer. -/
theorem durationSeconds_string_int (pf : Platform) (dur : intstr.IntOrString)
    (ht : dur.Typ = intstr.StringType)
    (hi : (strconv.ParseInt dur.StrVal 10 32).2 = none) :
    RolloutPause.DurationSeconds pf { Duration := some dur }
      = wrapInt32 (strconv.ParseInt dur.StrVal 10 32).1 := by
  simp [RolloutPause.DurationSeconds, ht, hi]

/-- A string that fails as an integer resolves through `ParseDuration`. -/
theorem durationSeconds_string_duration (pf : Platform) (dur : intstr.IntOrString)
    (ht : dur.Typ = intstr.StringType)
    (hi : (strconv.ParseInt dur.StrVal 10 32).2 ≠ none) :
    RolloutPause.DurationSeconds pf { Duration := some dur }
      = match time.ParseDuration pf dur.StrVal with
        | none => -1
        | some d => int32OfF64 pf (time.Seconds d) := by
  simp [RolloutPause.DurationSeconds, ht, hi]

/-- C1: for every pause whose duration is present and string-typed, if the
    text parses neither as a base-10 signed 32-bit integer nor as a duration
    expression, `DurationSeconds` returns `-1`, and so never `0`. -/
theorem C1_unparsable_string_yields_sentinel (pf : Platform) (p : RolloutPause)
    (dur : intstr.IntOrString) (hp : p.Duration = some dur)
    (ht : dur.Typ = intstr.StringType)
    (hi : (strconv.ParseInt dur.StrVal 10 32).2 ≠ none)
    (hd : time.ParseDuration pf dur.StrVal = none) :
    p.DurationSeconds pf = -1 ∧ p.DurationSeconds pf ≠ 0 := by
  obtain ⟨d⟩ := p
  simp only at hp
  subst hp
  rw [durationSeconds_string_duration pf dur ht hi, hd]
  exact ⟨rfl, by simp⟩

/-- Witness for C1: the string "not-a-duration" yields `-1`. -/
theorem C1_witness_not_a_duration :
    RolloutPause.DurationSeconds Platform.indefinite
        { Duration := DurationFromString (ascii "not-a-duration") } = -1
      ∧ RolloutPause.DurationSeconds Platform.indefinite
        { Duration := DurationFromString (ascii "not-a-duration") } ≠ 0 :=
  C1_unparsable_string_yields_sentinel Platform.indefinite
    { Duration := DurationFromString (ascii "not-a-duration") }
    (intstr.FromString (ascii "not-a-duration")) rfl rfl (by decide) (by decide)

/-- The value of `ParseInt` with bit size 32 is in the `int32` range when
    it reports no error. -/
theorem parseInt32_range (s : GoString)
    (h : (strconv.ParseInt s 10 32).2 = none) :
    -(2 ^ 31) ≤ (strconv.ParseInt s 10 32).1 ∧ (strconv.ParseInt s 10 32).1 < 2 ^ 31 := by
  unfold strconv.ParseInt at h ⊢
  cases s with
  | nil => simp at h
  | cons c rest =>
    simp only [] at h ⊢
    generalize strconv.ParseUint (if c = 43 ∨ c = 45 then rest else c :: rest) 10 32 = r at h ⊢
    have e31 : (2 : Nat) ^ ((if (32 : Nat) = 0 then 64 else 32) - 1) = 2147483648 := by decide
    rw [e31] at h ⊢
    by_cases h1 : r.2 ≠ none ∧ r.2 ≠ some strconv.NumErr.ErrRange
    · rw [if_pos h1] at h
      exact absurd h h1.1
    · rw [if_neg h1] at h ⊢
      by_cases h2 : decide (c = 45) = false ∧ r.1 ≥ 2147483648
      · rw [if_pos h2] at h
        simp at h
      · rw [if_neg h2] at h ⊢
        by_cases h3 : decide (c = 45) = true ∧ r.1 > 2147483648
        · rw [if_pos h3] at h
          simp at h
        · rw [if_neg h3]
          by_cases hn : c = 45
          · simp [hn] at h3 ⊢
            omega
          · simp [hn] at h2 ⊢
            omega

/-- The wrap into `int32` leaves a value of the `int32` range unchanged. -/
theorem wrapInt32_of_range (x : Int) (h1 : -(2 ^ 31) ≤ x) (h2 : x < 2 ^ 31) :
    wrapInt32 x = x := by
  unfold wrapInt32
  omega

/-- The wrap into `int64` leaves a value of the `int64` range unchanged. -/
theorem wrapInt64_of_range (x : Int) (h1 : -(2 ^ 63) ≤ x) (h2 : x < 2 ^ 63) :
    wrapInt64 x = x := by
  unfold wrapInt64
  omega

/-- C5: `DurationFromInt n` resolves to `n` for every `n` of the signed
    32-bit range, and every present duration that is integer-typed resolves
    to its stored integer unchanged. -/
theorem C5_integer_round_trip (pf : Platform) :
    (∀ n : Int, -(2 ^ 31) ≤ n → n < 2 ^ 31 →
        RolloutPause.DurationSeconds pf { Duration := DurationFromInt n } = n)
      ∧ (∀ (p : RolloutPause) (dur : intstr.IntOrString), p.Duration = some dur →
          dur.Typ = intstr.IntType → p.DurationSeconds pf = dur.IntVal) := by
  constructor
  · intro n h1 h2
    unfold DurationFromInt
    rw [durationSeconds_int pf _ (by simp [intstr.FromInt, intstr.IntType, intstr.StringType])]
    exact wrapInt32_of_range n h1 h2
  · intro p dur hp ht
    obtain ⟨d⟩ := p
    simp only at hp
    subst hp
    exact durationSeconds_int pf dur (by rw [ht]; decide)

/-- Witness for C5: the integers `600` and `-7`, and a stored `42`. -/
theorem C5_witness :
    RolloutPause.DurationSeconds Platform.indefinite { Duration := DurationFromInt 600 } = 600
      ∧ RolloutPause.DurationSeconds Platform.indefinite { Duration := DurationFromInt (-7) } = -7
      ∧ RolloutPause.DurationSeconds Platform.indefinite
          { Duration := some { Typ := intstr.IntType, IntVal := 42, StrVal := ascii "5m" } } = 42 :=
  ⟨(C5_integer_round_trip Platform.indefinite).1 600 (by decide) (by decide),
   (C5_integer_round_trip Platform.indefinite).1 (-7) (by decide) (by decide),
   (C5_integer_round_trip Platform.indefinite).2 _ _ rfl rfl⟩

/-- C7: every pause whose duration is nil resolves to `0`, not to the
    sentinel `-1`. -/
theorem C7_absent_duration_is_zero (pf : Platform) (p : RolloutPause)
    (hp : p.Duration = none) :
    p.DurationSeconds pf = 0 ∧ p.DurationSeconds pf ≠ -1 := by
  obtain ⟨d⟩ := p
  simp only at hp
  subst hp
  rw [durationSeconds_nil]
  decide

/-- Witness for C7: the pause with no duration. -/
theorem C7_witness :
    RolloutPause.DurationSeconds Platform.indefinite { Duration := none } = 0
      ∧ RolloutPause.DurationSeconds Platform.indefinite { Duration := none } ≠ -1 :=
  C7_absent_duration_is_zero Platform.indefinite { Duration := none } rfl

/-! ## Digit strings -/

theorem decimalAcc_cons (a c : Nat) (cs : GoString) :
    decimalAcc a (c :: cs) = decimalAcc (a * 10 + (c - 48)) cs := rfl

theorem decimalAcc_append (a : Nat) (xs ys : GoString) :
    decimalAcc a (xs ++ ys) = decimalAcc (decimalAcc a xs) ys := by
  unfold decimalAcc
  exact List.foldl_append _ _ _ _

/-- Reading more digits never lowers the value read so far. -/
theorem le_decimalAcc (ds : GoString) : ∀ a : Nat, a ≤ decimalAcc a ds := by
  induction ds with
  | nil => intro a; exact Nat.le_refl a
  | cons c cs ih =>
    intro a
    rw [decimalAcc_cons]
    have := ih (a * 10 + (c - 48))
    omega

/-- The digits produced for `n` are decimal digits, at least one, and they
    denote `n`. -/
theorem natDigits_spec : ∀ (fuel n : Nat), n < fuel →
    (∀ c ∈ natDigits fuel n, isDigit c) ∧ natDigits fuel n ≠ []
      ∧ decimalAcc 0 (natDigits fuel n) = n := by
  intro fuel
  induction fuel with
  | zero => intro n h; omega
  | succ f ih =>
    intro n h
    unfold natDigits
    by_cases h10 : n < 10
    · rw [if_pos h10]
      refine ⟨?_, by simp, ?_⟩
      · intro c hc
        simp only [List.mem_singleton] at hc
        unfold isDigit
        omega
      · simp [decimalAcc]
    · rw [if_neg h10]
      obtain ⟨h1, _, h3⟩ := ih (n / 10) (by omega)
      refine ⟨?_, by simp, ?_⟩
      · intro c hc
        rcases List.mem_append.mp hc with hc | hc
        · exact h1 c hc
        · simp only [List.mem_singleton] at hc
          unfold isDigit
          omega
      · rw [decimalAcc_append, h3]
        simp only [decimalAcc, List.foldl_cons, List.foldl_nil]
        omega

/-- The digits produced for a positive `n` do not start with a zero. -/
theorem natDigits_head : ∀ (fuel n : Nat), n < fuel → 0 < n →
    ∀ c ∈ (natDigits fuel n).head?, c ≠ 48 := by
  intro fuel
  induction fuel with
  | zero => intro n h; omega
  | succ f ih =>
    intro n h hpos c hc
    unfold natDigits at hc
    by_cases h10 : n < 10
    · rw [if_pos h10] at hc
      simp only [List.head?_cons, Option.mem_def, Option.some.injEq] at hc
      omega
    · rw [if_neg h10] at hc
      have hne := (natDigits_spec f (n / 10) (by omega)).2.1
      rw [List.head?_append_of_ne_nil _ hne] at hc
      exact ih (n / 10) (by omega) (by omega) c hc

/-- The canonical text of a positive number has no leading zero. -/
theorem formatUint_head (n : Nat) (h : 0 < n) : ∀ c ∈ (FormatUint n).head?, c ≠ 48 :=
  natDigits_head (n + 1) n (Nat.lt_succ_self n) h

/-- The canonical text on examples, with `Itoa` for a negative number. -/
theorem itoa_examples :
    FormatUint 0 = ascii "0" ∧ FormatUint 2147483647 = ascii "2147483647"
      ∧ Itoa (-2147483649) = ascii "-2147483649" ∧ Itoa 300 = ascii "300" := by
  decide

theorem formatUint_digits (n : Nat) : ∀ c ∈ FormatUint n, isDigit c :=
  (natDigits_spec (n + 1) n (Nat.lt_succ_self n)).1

theorem formatUint_ne_nil (n : Nat) : FormatUint n ≠ [] :=
  (natDigits_spec (n + 1) n (Nat.lt_succ_self n)).2.1

theorem decimalValue_formatUint (n : Nat) : decimalValue (FormatUint n) = n :=
  (natDigits_spec (n + 1) n (Nat.lt_succ_self n)).2.2

/-! ## `strconv.ParseInt` on digit strings -/

theorem digitVal_of_isDigit (c : Nat) (h : isDigit c) :
    strconv.digitVal c = some (c - 48) := by
  unfold isDigit at h
  simp [strconv.digitVal, h]

/-- The loop of `ParseUint` (base 10, 32 bits) on a digit string: the value
    when it fits 32 bits, a range error otherwise. -/
theorem parseUintLoop_digits (ds : GoString) (hd : ∀ c ∈ ds, isDigit c) :
    ∀ n : Nat, n ≤ 4294967295 →
      strconv.parseUintLoop 10 1844674407370955162 4294967295 ds n
        = if decimalAcc n ds ≤ 4294967295 then (decimalAcc n ds, none)
          else (4294967295, some strconv.NumErr.ErrRange) := by
  induction ds with
  | nil =>
    intro n hn
    simp [strconv.parseUintLoop, decimalAcc, hn]
  | cons c cs ih =>
    intro n hn
    have hc : isDigit c := hd c (List.mem_cons_self c cs)
    have hcs : ∀ x ∈ cs, isDigit x := fun x hx => hd x (List.mem_cons_of_mem c hx)
    unfold isDigit at hc
    rw [strconv.parseUintLoop, digitVal_of_isDigit c hc, decimalAcc_cons]
    simp only []
    have h1 : ¬ (c - 48 ≥ 10) := by omega
    have h2 : ¬ (n ≥ 1844674407370955162) := by omega
    rw [if_neg h1, if_neg h2]
    have e0 : wrapUint64 (n * 10) = n * 10 := by unfold wrapUint64; omega
    have e1 : wrapUint64 (n * 10 + (c - 48)) = n * 10 + (c - 48) := by
      unfold wrapUint64; omega
    rw [e0, e1]
    by_cases hov : n * 10 + (c - 48) > 4294967295
    · have h3 : n * 10 + (c - 48) < n * 10 ∨ n * 10 + (c - 48) > 4294967295 := Or.inr hov
      rw [if_pos h3]
      have := le_decimalAcc cs (n * 10 + (c - 48))
      rw [if_neg (by omega)]
    · have h3 : ¬ (n * 10 + (c - 48) < n * 10 ∨ n * 10 + (c - 48) > 4294967295) := by omega
      rw [if_neg h3]
      exact ih hcs _ (by omega)

/-- The function `ParseUint` (base 10, 32 bits) on a non-empty digit string. -/
theorem parseUint_digits (ds : GoString) (hne : ds ≠ []) (hd : ∀ c ∈ ds, isDigit c) :
    strconv.ParseUint ds 10 32
      = if decimalValue ds ≤ 4294967295 then (decimalValue ds, none)
        else (4294967295, some strconv.NumErr.ErrRange) := by
  unfold strconv.ParseUint
  rw [if_neg hne]
  have := parseUintLoop_digits ds hd 0 (by omega)
  simpa [decimalValue] using this

/-- The function `ParseInt` (base 10, 32 bits) on a non-empty digit string:
    the value below `2 ^ 31`, a range error from there. -/
theorem parseInt_digits (ds : GoString) (hne : ds ≠ []) (hd : ∀ c ∈ ds, isDigit c) :
    strconv.ParseInt ds 10 32
      = if decimalValue ds < 2147483648 then ((decimalValue ds : Int), none)
        else (2147483647, some strconv.NumErr.ErrRange) := by
  cases ds with
  | nil => exact absurd rfl hne
  | cons c cs =>
    have hc : isDigit c := hd c (List.mem_cons_self c cs)
    unfold isDigit at hc
    have hs : ¬ (c = 43 ∨ c = 45) := by omega
    have hneg : decide (c = 45) = false := by simp; omega
    unfold strconv.ParseInt
    simp only []
    rw [if_neg hs, hneg, parseUint_digits (c :: cs) hne hd]
    by_cases h32 : decimalValue (c :: cs) ≤ 4294967295
    · rw [if_pos h32]
      by_cases h31 : decimalValue (c :: cs) < 2147483648
      · simp [h31]
      · simp [h31]
    · rw [if_neg h32]
      have h31 : ¬ decimalValue (c :: cs) < 2147483648 := by omega
      simp [h31]

/-- The function `ParseInt` (base 10, 32 bits) on a minus sign followed by a
    non-empty digit string: the negated value up to `2 ^ 31`, a range error
    beyond. -/
theorem parseInt_neg_digits (ds : GoString) (hne : ds ≠ []) (hd : ∀ c ∈ ds, isDigit c) :
    strconv.ParseInt (45 :: ds) 10 32
      = if decimalValue ds ≤ 2147483648 then (-(decimalValue ds : Int), none)
        else (-2147483648, some strconv.NumErr.ErrRange) := by
  unfold strconv.ParseInt
  simp only []
  have hs : (if (45 : Nat) = 43 ∨ True then ds else 45 :: ds) = ds := by simp
  rw [hs, parseUint_digits ds hne hd]
  by_cases h32 : decimalValue ds ≤ 4294967295
  · rw [if_pos h32]
    by_cases h31 : decimalValue ds ≤ 2147483648
    · simp [h31]
    · simp [h31]
  · rw [if_neg h32]
    have h31 : ¬ decimalValue ds ≤ 2147483648 := by omega
    simp [h31]

/-- C3: for every integer `n` with `0 ≤ n ≤ 2 ^ 31 - 1`, the string form of
    `n` without a unit resolves to `n`. -/
theorem C3_bare_numeric_string_round_trip (pf : Platform) (n : Int)
    (h0 : 0 ≤ n) (h1 : n ≤ 2 ^ 31 - 1) :
    RolloutPause.DurationSeconds pf { Duration := DurationFromString (Itoa n) } = n := by
  have hI : Itoa n = FormatUint n.natAbs := by
    unfold Itoa
    rw [if_neg (by omega)]
  have hp := parseInt_digits (FormatUint n.natAbs) (formatUint_ne_nil _) (formatUint_digits _)
  rw [decimalValue_formatUint, if_pos (by omega)] at hp
  unfold DurationFromString
  rw [durationSeconds_string_int pf _ rfl (by simp [intstr.FromString, hI, hp])]
  simp only [intstr.FromString, hI, hp]
  rw [wrapInt32_of_range _ (by omega) (by omega)]
  omega

/-- Witness for C3: the largest `int32`. -/
theorem C3_witness :
    RolloutPause.DurationSeconds Platform.indefinite
      { Duration := DurationFromString (Itoa 2147483647) } = 2147483647 :=
  C3_bare_numeric_string_round_trip Platform.indefinite 2147483647 (by decide) (by decide)

/-! ## `time.ParseDuration` on digit strings -/

/-- On a digit string `leadingInt` either overflows or reads all of it. -/
theorem leadingInt_all_digits (ds : GoString) (hd : ∀ c ∈ ds, isDigit c) :
    ∀ x : Nat, time.leadingInt ds x = none ∨ ∃ v, time.leadingInt ds x = some (v, []) := by
  induction ds with
  | nil => intro x; exact Or.inr ⟨x, rfl⟩
  | cons c cs ih =>
    intro x
    have hc : isDigit c := hd c (List.mem_cons_self c cs)
    have hcs : ∀ y ∈ cs, isDigit y := fun y hy => hd y (List.mem_cons_of_mem c hy)
    unfold isDigit at hc
    rw [time.leadingInt, if_neg (by omega)]
    by_cases h1 : x > 2 ^ 63 / 10
    · rw [if_pos h1]
      exact Or.inl rfl
    · rw [if_neg h1]
      simp only []
      by_cases h2 : wrapUint64 (x * 10 + c - 48) > 2 ^ 63
      · rw [if_pos h2]
        exact Or.inl rfl
      · rw [if_neg h2]
        exact ih hcs _

/-- On digits followed by a rest that does not start with a digit,
    `leadingInt` reads the digits when their value is at most `2 ^ 63`. -/
theorem leadingInt_digits (ds : GoString) (hd : ∀ c ∈ ds, isDigit c) (rest : GoString)
    (hr : ∀ c ∈ rest.head?, ¬ isDigit c) :
    ∀ x : Nat, decimalAcc x ds ≤ 2 ^ 63 →
      time.leadingInt (ds ++ rest) x = some (decimalAcc x ds, rest) := by
  induction ds with
  | nil =>
    intro x _
    cases rest with
    | nil => rfl
    | cons c cs =>
      have hc : ¬ isDigit c := hr c (by simp)
      unfold isDigit at hc
      rw [List.nil_append, time.leadingInt, if_pos (by omega)]
      rfl
  | cons c cs ih =>
    intro x hx
    have hc : isDigit c := hd c (List.mem_cons_self c cs)
    have hcs : ∀ y ∈ cs, isDigit y := fun y hy => hd y (List.mem_cons_of_mem c hy)
    unfold isDigit at hc
    rw [decimalAcc_cons] at hx ⊢
    have hle := le_decimalAcc cs (x * 10 + (c - 48))
    have h63 : (2 : Nat) ^ 63 = 9223372036854775808 := by norm_num
    rw [h63] at hx
    rw [List.cons_append, time.leadingInt, if_neg (by omega), h63, if_neg (by omega)]
    simp only []
    have e1 : wrapUint64 (x * 10 + c - 48) = x * 10 + (c - 48) := by
      unfold wrapUint64; omega
    rw [e1, if_neg (by omega)]
    exact ih hcs _ (by rw [h63]; exact hx)

/-- A round of `ParseDuration` on a string of digits only is an error:
    the number overflows or the unit is missing. -/
theorem parseDurationRound_all_digits (pf : Platform) (ds : GoString)
    (hd : ∀ c ∈ ds, isDigit c) (d : Nat) :
    time.parseDurationRound pf ds d = none := by
  cases ds with
  | nil => rfl
  | cons c cs =>
    unfold time.parseDurationRound
    simp only []
    split
    · rfl
    · rcases leadingInt_all_digits (c :: cs) hd 0 with h | ⟨v, h⟩
      · rw [h]
      · rw [h]
        simp [time.parseFraction]

/-- The function `ParseDuration` on a string that starts with no sign. -/
theorem parseDuration_unsigned (pf : Platform) (c : Nat) (cs : GoString)
    (h1 : c ≠ 45) (h2 : c ≠ 43) :
    time.ParseDuration pf (c :: cs)
      = if c :: cs = [48] then some 0
        else match time.parseDurationRound pf (c :: cs) 0 with
          | none => none
          | some (s3, d1) =>
            match time.parseDurationLoop pf cs.length s3 d1 with
            | none => none
            | some d => if d > 2 ^ 63 - 1 then none else some (wrapInt64 (d : Int)) := by
  unfold time.ParseDuration
  simp only [h1, h2, or_self, ↓reduceIte, decide_False, Bool.false_eq_true,
    List.length_cons, time.parseDurationLoop]
  split
  · rfl
  · rw [if_neg (by simp)]
    cases time.parseDurationRound pf (c :: cs) 0 with
    | none => rfl
    | some r => rfl

/-- The function `ParseDuration` on a minus sign followed by a non-empty
    string. -/
theorem parseDuration_minus (pf : Platform) (c : Nat) (cs : GoString) :
    time.ParseDuration pf (45 :: c :: cs)
      = if c :: cs = [48] then some 0
        else match time.parseDurationRound pf (c :: cs) 0 with
          | none => none
          | some (s3, d1) =>
            match time.parseDurationLoop pf cs.length s3 d1 with
            | none => none
            | some d => some (wrapInt64 (-(wrapInt64 (d : Int)))) := by
  unfold time.ParseDuration
  simp only [true_or, ↓reduceIte, decide_True, List.length_cons, time.parseDurationLoop]
  split
  · rfl
  · rw [if_neg (by simp)]
    cases time.parseDurationRound pf (c :: cs) 0 with
    | none => rfl
    | some r => rfl

/-- The function `ParseDuration` on a string of digits only, other than
    "0", is an error. -/
theorem parseDuration_all_digits (pf : Platform) (ds : GoString)
    (hd : ∀ c ∈ ds, isDigit c) (h0 : ds ≠ [48]) :
    time.ParseDuration pf ds = none := by
  cases ds with
  | nil => simp [time.ParseDuration]
  | cons c cs =>
    have hc : isDigit c := hd c (List.mem_cons_self c cs)
    unfold isDigit at hc
    rw [parseDuration_unsigned pf c cs (by omega) (by omega), if_neg h0,
      parseDurationRound_all_digits pf (c :: cs) hd 0]

/-- The function `ParseDuration` on a minus sign followed by digits only,
    other than "-0", is an error. -/
theorem parseDuration_neg_all_digits (pf : Platform) (ds : GoString)
    (hd : ∀ c ∈ ds, isDigit c) (h0 : ds ≠ [48]) :
    time.ParseDuration pf (45 :: ds) = none := by
  cases ds with
  | nil => simp [time.ParseDuration]
  | cons c cs =>
    rw [parseDuration_minus pf c cs, if_neg h0,
      parseDurationRound_all_digits pf (c :: cs) hd 0]

/-- A digit string other than "0" is what a non-zero value needs. -/
theorem ne_zero_text_of_decimalValue (ds : GoString) (h : decimalValue ds ≠ 0) :
    ds ≠ [48] := by
  intro e
  rw [e] at h
  exact h (by decide)

/-- A string-typed duration that fails both parses resolves to `-1`. -/
theorem durationSeconds_unparsable (pf : Platform) (s : GoString)
    (hi : (strconv.ParseInt s 10 32).2 ≠ none)
    (hd : time.ParseDuration pf s = none) :
    RolloutPause.DurationSeconds pf { Duration := DurationFromString s } = -1 := by
  unfold DurationFromString
  rw [durationSeconds_string_duration pf _ rfl hi]
  simp only [intstr.FromString, hd]

/-- C6 (amended): a minus sign followed by one or more decimal digits that
    denote `m` resolves to `-m` when `m ≤ 2 ^ 31`, and to `-1` beyond. -/
theorem C6_negative_numeric_string (pf : Platform) (ds : GoString)
    (hne : ds ≠ []) (hd : ∀ c ∈ ds, isDigit c) :
    RolloutPause.DurationSeconds pf { Duration := DurationFromString (45 :: ds) }
      = if decimalValue ds ≤ 2 ^ 31 then -(decimalValue ds : Int) else -1 := by
  have hp := parseInt_neg_digits ds hne hd
  have e31 : (2 : Nat) ^ 31 = 2147483648 := by norm_num
  rw [e31]
  by_cases h : decimalValue ds ≤ 2147483648
  · rw [if_pos h] at hp ⊢
    unfold DurationFromString
    rw [durationSeconds_string_int pf _ rfl (by simp [intstr.FromString, hp])]
    simp only [intstr.FromString, hp]
    exact wrapInt32_of_range _ (by omega) (by omega)
  · rw [if_neg h] at hp ⊢
    exact durationSeconds_unparsable pf _ (by simp [hp])
      (parseDuration_neg_all_digits pf ds hd
        (ne_zero_text_of_decimalValue ds (by omega)))

/-- Witness for C6 (amended): "-5" resolves to `-5`. -/
theorem C6_witness :
    RolloutPause.DurationSeconds Platform.indefinite
        { Duration := DurationFromString (45 :: ascii "5") }
      = if decimalValue (ascii "5") ≤ 2 ^ 31 then -(decimalValue (ascii "5") : Int) else -1 :=
  C6_negative_numeric_string Platform.indefinite (ascii "5") (by decide) (by decide)

/-- Counterexample to C6 as stated: "-5" resolves to `-5`, not to `-1`. -/
theorem C6_counterexample :
    RolloutPause.DurationSeconds Platform.indefinite
        { Duration := DurationFromString (ascii "-5") } = -5
      ∧ RolloutPause.DurationSeconds Platform.indefinite
        { Duration := DurationFromString (ascii "-5") } ≠ -1 := by
  decide

/-- C10: the canonical text of an integer outside the signed 32-bit range
    resolves to `-1`. -/
theorem C10_out_of_range_numeric_string (pf : Platform) (n : Int)
    (h : 2 ^ 31 ≤ n ∨ n < -(2 ^ 31)) :
    (strconv.ParseInt (Itoa n) 10 32).2 = some strconv.NumErr.ErrRange
      ∧ time.ParseDuration pf (Itoa n) = none
      ∧ RolloutPause.DurationSeconds pf { Duration := DurationFromString (Itoa n) } = -1 := by
  have hv := decimalValue_formatUint n.natAbs
  rcases h with h | h
  · have hI : Itoa n = FormatUint n.natAbs := by
      unfold Itoa
      rw [if_neg (by omega)]
    have hp := parseInt_digits (FormatUint n.natAbs) (formatUint_ne_nil _) (formatUint_digits _)
    rw [hv, if_neg (by omega)] at hp
    have hd := parseDuration_all_digits pf _ (formatUint_digits n.natAbs)
      (ne_zero_text_of_decimalValue _ (by omega))
    rw [hI]
    exact ⟨by rw [hp], hd, durationSeconds_unparsable pf _ (by simp [hp]) hd⟩
  · have hI : Itoa n = 45 :: FormatUint n.natAbs := by
      unfold Itoa
      rw [if_pos (by omega)]
    have hp := parseInt_neg_digits (FormatUint n.natAbs) (formatUint_ne_nil _)
      (formatUint_digits _)
    rw [hv, if_neg (by omega)] at hp
    have hd := parseDuration_neg_all_digits pf _ (formatUint_digits n.natAbs)
      (ne_zero_text_of_decimalValue _ (by omega))
    rw [hI]
    exact ⟨by rw [hp], hd, durationSeconds_unparsable pf _ (by simp [hp]) hd⟩

/-- Witness for C10: `2 ^ 31`, the first integer above the range. -/
theorem C10_witness :
    (strconv.ParseInt (Itoa 2147483648) 10 32).2 = some strconv.NumErr.ErrRange
      ∧ time.ParseDuration Platform.indefinite (Itoa 2147483648) = none
      ∧ RolloutPause.DurationSeconds Platform.indefinite
          { Duration := DurationFromString (Itoa 2147483648) } = -1 :=
  C10_out_of_range_numeric_string Platform.indefinite 2147483648 (Or.inl (by decide))

/-- C2 (amended): when `DurationSeconds` returns `-1` the duration is
    present, and it is a stored integer `-1`, or a string that parses as the
    integer `-1`, or a string that parses as a duration of `-1` whole
    seconds, or a string that parses as neither. -/
theorem C2_sentinel_sources (pf : Platform) (p : RolloutPause)
    (h : p.DurationSeconds pf = -1) :
    ∃ dur, p.Duration = some dur ∧
      ((dur.Typ ≠ intstr.StringType ∧ dur.IntVal = -1)
        ∨ (dur.Typ = intstr.StringType ∧ strconv.ParseInt dur.StrVal 10 32 = (-1, none))
        ∨ (dur.Typ = intstr.StringType ∧ (strconv.ParseInt dur.StrVal 10 32).2 ≠ none
            ∧ ∃ d, time.ParseDuration pf dur.StrVal = some d
              ∧ int32OfF64 pf (time.Seconds d) = -1)
        ∨ (dur.Typ = intstr.StringType ∧ (strconv.ParseInt dur.StrVal 10 32).2 ≠ none
            ∧ time.ParseDuration pf dur.StrVal = none)) := by
  obtain ⟨d⟩ := p
  cases d with
  | none =>
    rw [durationSeconds_nil] at h
    exact absurd h (by decide)
  | some dur =>
    refine ⟨dur, rfl, ?_⟩
    by_cases ht : dur.Typ = intstr.StringType
    · by_cases hi : (strconv.ParseInt dur.StrVal 10 32).2 = none
      · rw [durationSeconds_string_int pf dur ht hi] at h
        obtain ⟨r1, r2⟩ := parseInt32_range dur.StrVal hi
        rw [wrapInt32_of_range _ r1 r2] at h
        exact Or.inr (Or.inl ⟨ht, Prod.ext h hi⟩)
      · rw [durationSeconds_string_duration pf dur ht hi] at h
        cases hd : time.ParseDuration pf dur.StrVal with
        | none => exact Or.inr (Or.inr (Or.inr ⟨ht, hi, rfl⟩))
        | some d0 =>
          rw [hd] at h
          exact Or.inr (Or.inr (Or.inl ⟨ht, hi, d0, rfl, h⟩))
    · rw [durationSeconds_int pf dur ht] at h
      exact Or.inl ⟨ht, h⟩

/-- Witness for C2 (amended): the stored integer `-1`. -/
theorem C2_witness :
    ∃ dur, (RolloutPause.mk (DurationFromInt (-1))).Duration = some dur ∧
      ((dur.Typ ≠ intstr.StringType ∧ dur.IntVal = -1)
        ∨ (dur.Typ = intstr.StringType ∧ strconv.ParseInt dur.StrVal 10 32 = (-1, none))
        ∨ (dur.Typ = intstr.StringType ∧ (strconv.ParseInt dur.StrVal 10 32).2 ≠ none
            ∧ ∃ d, time.ParseDuration Platform.indefinite dur.StrVal = some d
              ∧ int32OfF64 Platform.indefinite (time.Seconds d) = -1)
        ∨ (dur.Typ = intstr.StringType ∧ (strconv.ParseInt dur.StrVal 10 32).2 ≠ none
            ∧ time.ParseDuration Platform.indefinite dur.StrVal = none)) :=
  C2_sentinel_sources Platform.indefinite (RolloutPause.mk (DurationFromInt (-1))) (by decide)

set_option maxRecDepth 100000 in
/-- Counterexample to C2 as stated: `-1` is returned for the valid integer
    `-1`, for the valid numeric string "-1" and for the valid duration string
    "-1s". -/
theorem C2_counterexample :
    (RolloutPause.DurationSeconds Platform.indefinite { Duration := DurationFromInt (-1) } = -1
        ∧ (intstr.FromInt (-1)).Typ ≠ intstr.StringType)
      ∧ (RolloutPause.DurationSeconds Platform.indefinite
            { Duration := DurationFromString (ascii "-1") } = -1
        ∧ strconv.ParseInt (ascii "-1") 10 32 = (-1, none))
      ∧ (RolloutPause.DurationSeconds Platform.indefinite
            { Duration := DurationFromString (ascii "-1s") } = -1
        ∧ time.ParseDuration Platform.indefinite (ascii "-1s") = some (-1000000000)) := by
  decide

/-! ## `time.ParseDuration` on digits followed by one unit -/

/-- The loop of `ParseDuration` returns the sum once the string is consumed. -/
theorem parseDurationLoop_nil (pf : Platform) (fuel d : Nat) :
    time.parseDurationLoop pf fuel [] d = some d := by
  cases fuel <;> rfl

/-- The fraction step reads nothing when no period comes next. -/
theorem parseFraction_unit (u : GoString) (hu : ∀ b ∈ u, time.unitEnd b = false) :
    time.parseFraction u = (0, F64.ofInt 1, false, u) := by
  cases u with
  | nil => rfl
  | cons b t =>
    have hb : time.unitEnd b = false := hu b (List.mem_cons_self b t)
    have hne : b ≠ 46 := by
      intro e
      rw [e] at hb
      exact absurd hb (by decide)
    simp [time.parseFraction, hne]

/-- One round of `ParseDuration` on digits followed by one unit: the value
    in nanoseconds, nothing left. -/
theorem parseDurationRound_digits_unit (pf : Platform) (ds u : GoString) (unit : Nat)
    (hne : ds ≠ []) (hd : ∀ c ∈ ds, isDigit c)
    (hu : time.unitMap u = some unit) (hu1 : u ≠ [])
    (hu2 : ∀ b ∈ u, time.unitEnd b = false) (hpos : 0 < unit)
    (hv : decimalValue ds * unit ≤ 2 ^ 63) :
    time.parseDurationRound pf (ds ++ u) 0 = some ([], decimalValue ds * unit) := by
  have h63 : (2 : Nat) ^ 63 = 9223372036854775808 := by norm_num
  have hvle : decimalValue ds ≤ 2 ^ 63 :=
    le_trans (Nat.le_mul_of_pos_right _ hpos) hv
  have hr : ∀ c ∈ u.head?, ¬ isDigit c := by
    intro c hc
    have hmem : c ∈ u := List.mem_of_mem_head? hc
    have := hu2 c hmem
    unfold time.unitEnd at this
    unfold isDigit
    intro hcd
    simp [hcd] at this
  have hli := leadingInt_digits ds hd u hr 0 hvle
  cases ds with
  | nil => exact absurd rfl hne
  | cons c cs =>
    have hc : isDigit c := hd c (List.mem_cons_self c cs)
    unfold isDigit at hc
    rw [List.cons_append] at hli ⊢
    unfold time.parseDurationRound
    simp only []
    rw [if_neg (by simp; omega), hli]
    simp only []
    rw [parseFraction_unit u hu2]
    have htw : List.takeWhile (fun b => !time.unitEnd b) u = u := by
      rw [List.takeWhile_eq_self_iff]
      intro b hb
      simp [hu2 b hb]
    have hdw : List.dropWhile (fun b => !time.unitEnd b) u = [] := by
      rw [List.dropWhile_eq_nil_iff]
      intro b hb
      simp [hu2 b hb]
    have hpre : decide ((c :: (cs ++ u)).length ≠ u.length) = true := by
      simp
      omega
    simp only [htw, hdw, hpre, hu]
    rw [if_neg (by simp), if_neg hu1]
    have hdiv : ¬ (decimalAcc 0 (c :: cs) > 2 ^ 63 / unit) := by
      have : decimalValue (c :: cs) ≤ 2 ^ 63 / unit :=
        (Nat.le_div_iff_mul_le hpos).mpr hv
      unfold decimalValue at this
      omega
    rw [if_neg hdiv]
    have hw : wrapUint64 (decimalAcc 0 (c :: cs) * unit) = decimalAcc 0 (c :: cs) * unit := by
      unfold wrapUint64
      unfold decimalValue at hv
      omega
    simp only [Nat.lt_irrefl, gt_iff_lt, false_and, ↓reduceIte, hw, Nat.zero_add]
    unfold decimalValue at hv ⊢
    rw [if_neg (by omega)]

/-- The function `ParseDuration` on digits followed by one unit: the value
    in nanoseconds when it fits an `int64`. -/
theorem parseDuration_digits_unit (pf : Platform) (ds u : GoString) (unit : Nat)
    (hne : ds ≠ []) (hd : ∀ c ∈ ds, isDigit c)
    (hu : time.unitMap u = some unit) (hu1 : u ≠ [])
    (hu2 : ∀ b ∈ u, time.unitEnd b = false) (hpos : 0 < unit)
    (hv : decimalValue ds * unit ≤ 2 ^ 63 - 1) :
    time.ParseDuration pf (ds ++ u) = some ((decimalValue ds * unit : Nat) : Int) := by
  have h63 : (2 : Nat) ^ 63 = 9223372036854775808 := by norm_num
  have hround := parseDurationRound_digits_unit pf ds u unit hne hd hu hu1 hu2 hpos
    (by omega)
  cases ds with
  | nil => exact absurd rfl hne
  | cons c cs =>
    have hc : isDigit c := hd c (List.mem_cons_self c cs)
    unfold isDigit at hc
    rw [List.cons_append] at hround ⊢
    rw [parseDuration_unsigned pf c (cs ++ u) (by omega) (by omega),
      if_neg (by simp [hu1]), hround]
    simp only [parseDurationLoop_nil]
    rw [if_neg (by omega), wrapInt64_of_range _ (by omega) (by omega)]

/-! ## Whole seconds survive the conversion through `float64` -/

/-- The halving loop computes the binary logarithm. -/
theorem ilog2Loop_spec : ∀ (fuel n : Nat), 0 < n → n ≤ fuel →
    2 ^ F64.ilog2Loop fuel n ≤ n ∧ n < 2 ^ (F64.ilog2Loop fuel n + 1) := by
  intro fuel
  induction fuel with
  | zero => intro n h0 h; omega
  | succ f ih =>
    intro n h0 h
    unfold F64.ilog2Loop
    by_cases h2 : n < 2
    · rw [if_pos h2]
      simp only [pow_zero, zero_add, pow_one]
      omega
    · rw [if_neg h2]
      obtain ⟨a, b⟩ := ih (n / 2) (by omega) (by omega)
      rw [pow_succ] at b ⊢
      rw [pow_succ, pow_succ]
      omega

/-- The binary logarithm of `n` is the `k` with `2 ^ k ≤ n < 2 ^ (k + 1)`. -/
theorem ilog2_eq (n k : Nat) (h1 : 2 ^ k ≤ n) (h2 : n < 2 ^ (k + 1)) : F64.ilog2 n = k := by
  have hn : 0 < n := lt_of_lt_of_le (Nat.pow_pos (by norm_num)) h1
  obtain ⟨a, b⟩ := ilog2Loop_spec n n hn (Nat.le_refl n)
  unfold F64.ilog2
  by_contra hne
  rcases Nat.lt_or_gt_of_ne hne with hlt | hgt
  · have : 2 ^ (F64.ilog2Loop n n + 1) ≤ 2 ^ k := Nat.pow_le_pow_right (by norm_num) hlt
    omega
  · have : 2 ^ (k + 1) ≤ 2 ^ F64.ilog2Loop n n := Nat.pow_le_pow_right (by norm_num) hgt
    omega

/-- A quotient that is an integer rounds to that integer. -/
theorem roundHalfEven_mul (a d : Nat) (hd : 0 < d) : F64.roundHalfEven (a * d) d = a := by
  unfold F64.roundHalfEven
  simp only [Nat.mul_div_cancel a hd, Nat.mul_mod_left, Nat.mul_zero]
  rw [if_pos hd]

/-- An integer `M` below `2 ^ 52`, given as the quotient `M * 2 ^ k / 2 ^ k`,
    rounds to itself: the double has mantissa `M * 2 ^ (52 - L)` and exponent
    `L - 52`, with `L` the binary logarithm of `M`. -/
theorem roundMag_exact (M k : Nat) (hM0 : 0 < M) (hM : M < 2 ^ 52) :
    F64.roundMag (M * 2 ^ k) (2 ^ k)
      = F64.fin ((M * 2 ^ (52 - F64.ilog2 M) : Nat) : Int) ((F64.ilog2 M : Int) - 52) := by
  obtain ⟨hL1, hL2⟩ := ilog2Loop_spec M M hM0 (Nat.le_refl M)
  have hLdef : F64.ilog2Loop M M = F64.ilog2 M := rfl
  rw [hLdef] at hL1 hL2
  generalize hL : F64.ilog2 M = L at hL1 hL2 ⊢
  have hL52 : L < 52 := by
    by_contra hge
    have : 2 ^ 52 ≤ 2 ^ L := Nat.pow_le_pow_right (by norm_num) (by omega)
    omega
  have hk0 : 0 < 2 ^ k := Nat.pow_pos (by norm_num)
  have hlogp : F64.ilog2 (M * 2 ^ k) = L + k := by
    apply ilog2_eq
    · rw [pow_add]
      exact Nat.mul_le_mul_right _ hL1
    · have : 2 ^ (L + k + 1) = 2 ^ (L + 1) * 2 ^ k := by ring
      rw [this]
      exact Nat.mul_lt_mul_of_pos_right hL2 hk0
  have hlogq : F64.ilog2 (2 ^ k) = k :=
    ilog2_eq _ _ (Nat.le_refl _) (Nat.pow_lt_pow_right (by norm_num) (Nat.lt_succ_self k))
  have hratio : F64.ilog2Ratio (M * 2 ^ k) (2 ^ k) = (L : Int) := by
    unfold F64.ilog2Ratio
    rw [hlogp, hlogq]
    have e : ((L + k : Nat) : Int) - (k : Int) = (L : Int) := by omega
    simp only [e, Int.natCast_nonneg, ↓reduceIte, Int.toNat_ofNat]
    rw [if_pos]
    rw [Nat.mul_comm]
    exact Nat.mul_le_mul_right _ hL1
  have hue : max ((L : Int) - 52) (-1074) = (L : Int) - 52 := by omega
  have hneg : ¬ (0 ≤ (L : Int) - 52) := by omega
  have htn : (-((L : Int) - 52)).toNat = 52 - L := by omega
  have hm : F64.roundHalfEven (M * 2 ^ k * 2 ^ (52 - L)) (2 ^ k) = M * 2 ^ (52 - L) := by
    have : M * 2 ^ k * 2 ^ (52 - L) = M * 2 ^ (52 - L) * 2 ^ k := by ring
    rw [this]
    exact roundHalfEven_mul _ _ hk0
  have hlogm : F64.ilog2 (M * 2 ^ (52 - L)) = 52 := by
    apply ilog2_eq
    · have : 2 ^ 52 = 2 ^ L * 2 ^ (52 - L) := by
        rw [← pow_add]
        congr 1
        omega
      rw [this]
      exact Nat.mul_le_mul_right _ hL1
    · have : 2 ^ (52 + 1) = 2 ^ (L + 1) * 2 ^ (52 - L) := by
        rw [← pow_add]
        congr 1
        omega
      rw [this]
      exact Nat.mul_lt_mul_of_pos_right hL2 (Nat.pow_pos (by norm_num))
  unfold F64.roundMag
  have hp : M * 2 ^ k ≠ 0 := Nat.pos_iff_ne_zero.mp (Nat.mul_pos hM0 hk0)
  rw [if_neg hp]
  simp only [hratio, hue, hneg, ↓reduceIte, htn, hm, hlogm]
  rw [if_neg (by omega)]

/-- The double nearest to a positive quotient given by a cast. -/
theorem roundQ_natCast (p q : Nat) (m e : Int) (h : F64.roundMag p q = F64.fin m e) :
    F64.roundQ (p : Int) q = F64.fin m e := by
  unfold F64.roundQ
  rw [Int.natAbs_ofNat, h]
  simp only
  rw [if_neg (by omega)]

/-- The conversion `float64(S)` of a positive integer below `2 ^ 52` is
    exact. -/
theorem ofInt_exact (S : Nat) (h0 : 0 < S) (h : S < 2 ^ 52) :
    F64.ofInt (S : Int)
      = F64.fin ((S * 2 ^ (52 - F64.ilog2 S) : Nat) : Int) ((F64.ilog2 S : Int) - 52) := by
  have := roundMag_exact S 0 h0 h
  rw [pow_zero, Nat.mul_one] at this
  exact roundQ_natCast S 1 _ _ this

set_option maxRecDepth 100000 in
/-- The term `float64(0) / 1e9` of `Seconds` is zero. -/
theorem zero_div_1e9 :
    F64.div (F64.ofInt 0) (F64.ofInt 1000000000) = F64.fin 0 0 := by
  decide

set_option maxRecDepth 100000 in
/-- The seconds of the zero duration convert to `0`. -/
theorem int32_seconds_zero (pf : Platform) : int32OfF64 pf (time.Seconds 0) = 0 := by
  have h : time.Seconds 0 = F64.fin 0 0 := by decide
  rw [h]
  rfl

/-- A duration of `S` whole seconds, `0 ≤ S < 2 ^ 31`, converts to `S`:
    `int32(d.Seconds())` is exact on whole seconds. -/
theorem int32_seconds_whole (pf : Platform) (S : Nat) (h : S < 2 ^ 31) :
    int32OfF64 pf (time.Seconds ((S * 1000000000 : Nat) : Int)) = (S : Int) := by
  rcases Nat.eq_zero_or_pos S with h0 | h0
  · subst h0
    exact int32_seconds_zero pf
  · have hS52 : S < 2 ^ 52 := by
      have : (2 : Nat) ^ 31 ≤ 2 ^ 52 := Nat.pow_le_pow_right (by norm_num) (by norm_num)
      omega
    obtain ⟨hL1, hL2⟩ := ilog2Loop_spec S S h0 (Nat.le_refl S)
    have hLdef : F64.ilog2Loop S S = F64.ilog2 S := rfl
    rw [hLdef] at hL1 hL2
    have hex := ofInt_exact S h0 hS52
    have hrm := roundMag_exact S (52 - F64.ilog2 S) h0 hS52
    generalize F64.ilog2 S = L at hL1 hL2 hex hrm
    have hL52 : L < 52 := by
      by_contra hge
      have : 2 ^ 52 ≤ 2 ^ L := Nat.pow_le_pow_right (by norm_num) (by omega)
      omega
    have hsec : Int.tdiv ((S * 1000000000 : Nat) : Int) 1000000000 = (S : Int) := by
      push_cast
      exact Int.mul_tdiv_cancel _ (by norm_num)
    have hnsec : Int.tmod ((S * 1000000000 : Nat) : Int) 1000000000 = 0 := by
      push_cast
      exact Int.mul_tmod_left _ _
    unfold time.Seconds
    simp only [hsec, hnsec, zero_div_1e9, hex]
    have hmin : min ((L : Int) - 52) 0 = (L : Int) - 52 := by omega
    have hneg : ¬ (0 ≤ (L : Int) - 52) := by omega
    have htn : (-((L : Int) - 52)).toNat = 52 - L := by omega
    have hsum : ((S * 2 ^ (52 - L) : Nat) : Int) * 2 ^ ((L : Int) - 52 - ((L : Int) - 52)).toNat
        + 0 * 2 ^ (0 - ((L : Int) - 52)).toNat = ((S * 2 ^ (52 - L) : Nat) : Int) := by
      simp
    have hadd : F64.add (F64.fin ((S * 2 ^ (52 - L) : Nat) : Int) ((L : Int) - 52)) (F64.fin 0 0)
        = F64.fin ((S * 2 ^ (52 - L) : Nat) : Int) ((L : Int) - 52) := by
      unfold F64.add
      simp only [hmin, hsum]
      unfold F64.roundDyadic
      rw [if_neg hneg, htn]
      exact roundQ_natCast _ _ _ _ hrm
    rw [hadd]
    unfold int32OfF64
    simp only []
    have htr : F64.trunc ((S * 2 ^ (52 - L) : Nat) : Int) ((L : Int) - 52) = (S : Int) := by
      unfold F64.trunc
      rw [if_neg hneg, htn]
      have : ((2 : Int) ^ (52 - L)) = ((2 ^ (52 - L) : Nat) : Int) := by push_cast; rfl
      rw [this, ← Int.ofNat_tdiv]
      congr 1
      exact Nat.mul_div_cancel _ (Nat.pow_pos (by norm_num))
    rw [htr]
    rw [if_pos (by omega)]

/-! ## The loop of `ParseDuration` never runs out of fuel -/

/-- The rest left by `leadingInt` is no longer than its input. -/
theorem leadingInt_length (s : GoString) :
    ∀ (x v : Nat) (r : GoString), time.leadingInt s x = some (v, r) → r.length ≤ s.length := by
  induction s with
  | nil =>
    intro x v r h
    simp only [time.leadingInt, Option.some.injEq, Prod.mk.injEq] at h
    rw [← h.2]
  | cons c cs ih =>
    intro x v r h
    rw [time.leadingInt] at h
    split at h
    · simp only [Option.some.injEq, Prod.mk.injEq] at h
      rw [← h.2]
    · split at h
      · exact absurd h (by simp)
      · simp only [] at h
        split at h
        · exact absurd h (by simp)
        · have := ih _ v r h
          simp only [List.length_cons]
          omega

/-- The rest left by `leadingFraction` is no longer than its input. -/
theorem leadingFraction_length (s : GoString) :
    ∀ (x : Nat) (scale : F64) (o : Bool),
      (time.leadingFraction s x scale o).2.2.length ≤ s.length := by
  induction s with
  | nil => intro x scale o; simp [time.leadingFraction]
  | cons c cs ih =>
    intro x scale o
    rw [time.leadingFraction]
    split
    · exact Nat.le_refl _
    · split
      · exact Nat.le_succ_of_le (ih _ _ _)
      · split
        · exact Nat.le_succ_of_le (ih _ _ _)
        · simp only []
          split
          · exact Nat.le_succ_of_le (ih _ _ _)
          · exact Nat.le_succ_of_le (ih _ _ _)

/-- The rest left by the fraction step is no longer than its input. -/
theorem parseFraction_length (s : GoString) :
    (time.parseFraction s).2.2.2.length ≤ s.length := by
  cases s with
  | nil => simp [time.parseFraction]
  | cons c t =>
    unfold time.parseFraction
    simp only []
    split
    · exact Nat.le_succ_of_le (leadingFraction_length t _ _ _)
    · exact Nat.le_refl _

/-- Every successful round of `ParseDuration` consumes at least one byte. -/
theorem parseDurationRound_length (pf : Platform) (s : GoString) (d : Nat)
    (s3 : GoString) (d1 : Nat) (h : time.parseDurationRound pf s d = some (s3, d1)) :
    s3.length < s.length := by
  cases s with
  | nil => simp [time.parseDurationRound] at h
  | cons c cs =>
    unfold time.parseDurationRound at h
    simp only [] at h
    split at h
    · exact absurd h (by simp)
    · cases hli : time.leadingInt (c :: cs) 0 with
      | none =>
        rw [hli] at h
        exact absurd h (by simp)
      | some r =>
        obtain ⟨v, s1⟩ := r
        rw [hli] at h
        simp only [] at h
        have h1 := leadingInt_length (c :: cs) 0 v s1 hli
        have h2 := parseFraction_length s1
        generalize (time.parseFraction s1).2.2.2 = s2 at h h2
        have h3 : (List.takeWhile (fun b => !time.unitEnd b) s2).length
            + (List.dropWhile (fun b => !time.unitEnd b) s2).length = s2.length := by
          rw [← List.length_append, List.takeWhile_append_dropWhile]
        repeat' split at h
        all_goals first
          | (simp at h; done)
          | (simp only [Option.some.injEq, Prod.mk.injEq] at h
             have hpos : 0 < (List.takeWhile (fun b => !time.unitEnd b) s2).length :=
               List.length_pos.mpr (by assumption)
             rw [← h.1]
             omega)

/-- The loop of `ParseDuration` gives the same result with any fuel that is
    at least the length of the string: it never stops for lack of fuel. -/
theorem parseDurationLoop_fuel (pf : Platform) :
    ∀ (f1 f2 : Nat) (s : GoString) (d : Nat), s.length ≤ f1 → s.length ≤ f2 →
      time.parseDurationLoop pf f1 s d = time.parseDurationLoop pf f2 s d := by
  intro f1
  induction f1 with
  | zero =>
    intro f2 s d h1 _
    have : s = [] := List.length_eq_zero.mp (Nat.le_zero.mp h1)
    subst this
    rw [parseDurationLoop_nil, parseDurationLoop_nil]
  | succ f ih =>
    intro f2 s d h1 h2
    cases s with
    | nil => rw [parseDurationLoop_nil, parseDurationLoop_nil]
    | cons c cs =>
      cases f2 with
      | zero => simp at h2
      | succ g =>
        rw [time.parseDurationLoop, time.parseDurationLoop]
        cases hr : time.parseDurationRound pf (c :: cs) d with
        | none => rfl
        | some r =>
          obtain ⟨s3, d1⟩ := r
          have := parseDurationRound_length pf (c :: cs) d s3 d1 hr
          simp only [List.length_cons] at this h1 h2
          exact ih g s3 d1 (by omega) (by omega)

/-! ## Digits followed by a unit: `ParseInt` fails, `ParseDuration` reads -/

/-- The loop of `ParseUint` reports an error on any string that holds a
    byte which is no base-10 digit, and a range error comes with the value
    `maxVal`. -/
theorem parseUintLoop_bad_byte (cutoff maxVal : Nat) (b : Nat) (t : GoString)
    (hb : ∀ d, strconv.digitVal b = some d → d ≥ 10) (ds : GoString) :
    ∀ n : Nat,
      (strconv.parseUintLoop 10 cutoff maxVal (ds ++ b :: t) n).2 ≠ none
        ∧ ((strconv.parseUintLoop 10 cutoff maxVal (ds ++ b :: t) n).2
              = some strconv.NumErr.ErrRange →
            (strconv.parseUintLoop 10 cutoff maxVal (ds ++ b :: t) n).1 = maxVal) := by
  induction ds with
  | nil =>
    intro n
    rw [List.nil_append, strconv.parseUintLoop]
    cases hdv : strconv.digitVal b with
    | none => simp
    | some d =>
      have := hb d hdv
      simp only []
      rw [if_pos this]
      simp
  | cons c cs ih =>
    intro n
    rw [List.cons_append, strconv.parseUintLoop]
    cases strconv.digitVal c with
    | none => simp
    | some d =>
      simp only []
      split
      · simp
      · split
        · simp
        · split
          · simp
          · exact ih _

/-- The function `ParseInt` (base 10, 32 bits) reports an error on digits
    followed by a byte that is no base-10 digit. -/
theorem parseInt_digits_then_bad_byte (ds : GoString) (hne : ds ≠ [])
    (hd : ∀ c ∈ ds, isDigit c) (b : Nat) (t : GoString)
    (hb : ∀ d, strconv.digitVal b = some d → d ≥ 10) :
    (strconv.ParseInt (ds ++ b :: t) 10 32).2 ≠ none := by
  cases ds with
  | nil => exact absurd rfl hne
  | cons c cs =>
    have hc : isDigit c := hd c (List.mem_cons_self c cs)
    unfold isDigit at hc
    have hs : ¬ (c = 43 ∨ c = 45) := by omega
    have hneg : decide (c = 45) = false := by simp; omega
    obtain ⟨h1, h2⟩ := parseUintLoop_bad_byte 1844674407370955162 4294967295 b t hb (c :: cs) 0
    have hpu : strconv.ParseUint (c :: cs ++ b :: t) 10 32
        = strconv.parseUintLoop 10 1844674407370955162 4294967295 (c :: cs ++ b :: t) 0 := by
      unfold strconv.ParseUint
      rw [if_neg (by simp)]
      simp
    unfold strconv.ParseInt
    rw [List.cons_append]
    simp only []
    rw [if_neg hs, hneg, ← List.cons_append, hpu]
    generalize strconv.parseUintLoop 10 1844674407370955162 4294967295 (c :: cs ++ b :: t) 0
      = r at h1 h2
    by_cases hr : r.2 = some strconv.NumErr.ErrRange
    · have hv := h2 hr
      rw [if_neg (by simp [hr])]
      rw [if_pos (by simp [hv])]
      simp
    · rw [if_pos ⟨h1, hr⟩]
      exact h1

/-- Digits of `n` followed by a unit of `k` seconds resolve to `n * k`
    seconds when that fits an `int32`. -/
theorem durationSeconds_digits_unit (pf : Platform) (n k b : Nat)
    (hu : time.unitMap [b] = some (k * 1000000000))
    (hu2 : time.unitEnd b = false)
    (hb : ∀ d, strconv.digitVal b = some d → d ≥ 10)
    (hk : 0 < k) (hfit : n * k < 2 ^ 31) :
    RolloutPause.DurationSeconds pf { Duration := DurationFromString (FormatUint n ++ [b]) }
      = ((n * k : Nat) : Int) := by
  have hi := parseInt_digits_then_bad_byte (FormatUint n) (formatUint_ne_nil n)
    (formatUint_digits n) b [] hb
  have h31 : (2 : Nat) ^ 31 = 2147483648 := by norm_num
  have h63 : (2 : Nat) ^ 63 = 9223372036854775808 := by norm_num
  have hpd := parseDuration_digits_unit pf (FormatUint n) [b] (k * 1000000000)
    (formatUint_ne_nil n) (formatUint_digits n) hu (by simp)
    (by intro x hx; rw [List.mem_singleton] at hx; rw [hx]; exact hu2)
    (by omega)
    (by rw [decimalValue_formatUint, ← Nat.mul_assoc]; omega)
  rw [decimalValue_formatUint, ← Nat.mul_assoc] at hpd
  unfold DurationFromString
  rw [durationSeconds_string_duration pf _ rfl hi]
  simp only [intstr.FromString, hpd]
  exact int32_seconds_whole pf (n * k) hfit

/-- C4: the decimal text of `n` followed by a single unit resolves to the
    whole number of seconds whenever that number fits an `int32`: `n` for
    "s", `60 * n` for "m", `3600 * n` for "h". -/
theorem C4_digits_with_unit (pf : Platform) (n : Nat) :
    (n ≤ 2 ^ 31 - 1 →
        RolloutPause.DurationSeconds pf
          { Duration := DurationFromString (FormatUint n ++ ascii "s") } = (n : Int))
      ∧ (60 * n ≤ 2 ^ 31 - 1 →
        RolloutPause.DurationSeconds pf
          { Duration := DurationFromString (FormatUint n ++ ascii "m") } = 60 * (n : Int))
      ∧ (3600 * n ≤ 2 ^ 31 - 1 →
        RolloutPause.DurationSeconds pf
          { Duration := DurationFromString (FormatUint n ++ ascii "h") } = 3600 * (n : Int)) := by
  have h31 : (2 : Nat) ^ 31 = 2147483648 := by norm_num
  refine ⟨?_, ?_, ?_⟩
  · intro h
    have := durationSeconds_digits_unit pf n 1 115 (by decide) (by decide) (by decide)
      (by decide) (by omega)
    rw [Nat.mul_one] at this
    exact this
  · intro h
    have e : ascii "m" = [109] := by decide
    rw [e, durationSeconds_digits_unit pf n 60 109 (by decide) (by decide) (by decide)
      (by decide) (by omega)]
    push_cast
    ring
  · intro h
    have e : ascii "h" = [104] := by decide
    rw [e, durationSeconds_digits_unit pf n 3600 104 (by decide) (by decide) (by decide)
      (by decide) (by omega)]
    push_cast
    ring

/-- Witness for C4: "30s" resolves to 30 and "5m" to 300. -/
theorem C4_witness :
    RolloutPause.DurationSeconds Platform.indefinite
        { Duration := DurationFromString (ascii "30s") } = 30
      ∧ RolloutPause.DurationSeconds Platform.indefinite
        { Duration := DurationFromString (ascii "5m") } = 300 :=
  ⟨(C4_digits_with_unit Platform.indefinite 30).1 (by decide),
   (C4_digits_with_unit Platform.indefinite 5).2.1 (by decide)⟩

/-! ## The resolver on examples -/

set_option maxRecDepth 100000 in
/-- The resolver evaluated on strings with several units and fractions, on
    the zero text and on the empty text. -/
theorem durationSeconds_examples :
    RolloutPause.DurationSeconds Platform.indefinite
        { Duration := DurationFromString (ascii "1h2m3.5s") } = 3723
      ∧ RolloutPause.DurationSeconds Platform.indefinite
        { Duration := DurationFromString (ascii "1.5h") } = 5400
      ∧ RolloutPause.DurationSeconds Platform.indefinite
        { Duration := DurationFromString (ascii "+10") } = 10
      ∧ RolloutPause.DurationSeconds Platform.indefinite
        { Duration := DurationFromString (ascii "0") } = 0
      ∧ RolloutPause.DurationSeconds Platform.indefinite
        { Duration := DurationFromString (ascii "") } = -1
      ∧ RolloutPause.DurationSeconds Platform.indefinite
        { Duration := DurationFromString (ascii "10x") } = -1 := by
  decide

/-! ## Theorems: pause condition set and phase priority -/

/-- C8: for a valid spec and a current observed generation, an active pause
    condition together with an observed replica failure reads `Paused`, not
    `Degraded`. -/
theorem C8_paused_over_degraded (x : PhaseInput) (st : RolloutStatus)
    (hv : x.invalidSpec = false) (hg : st.ObservedGeneration = x.generation)
    (hp : st.PauseConditions ≠ []) (hf : x.replicaFailure = true) :
    computePhase x st = RolloutPhasePaused ∧ computePhase x st ≠ RolloutPhaseDegraded := by
  have hpaused : st.IsPaused = true := by
    unfold RolloutStatus.IsPaused
    have : 0 < st.PauseConditions.length := List.length_pos.mpr hp
    simp [this]
  have hb : basePhase x st = RolloutPhasePaused := by
    unfold basePhase
    simp [hv, hg, hpaused]
  unfold computePhase
  rw [hb, hf]
  simp only [ne_eq, not_true_eq_false, and_false, ↓reduceIte, true_and]
  decide

/-- Witness for C8: a paused canary step with a replica failure. -/
theorem C8_witness :
    computePhase
        { invalidSpec := false, generation := 3, desiredReplicas := 5, stepCount := 2,
          replicaFailure := true }
        { PauseConditions := [{ Reason := PauseReasonCanaryPauseStep, StartTime := 0 }],
          ControllerPause := false, UpdatedReplicas := 1, AvailableReplicas := 1,
          CurrentStepIndex := some 1, ObservedGeneration := 3 } = RolloutPhasePaused
      ∧ computePhase
        { invalidSpec := false, generation := 3, desiredReplicas := 5, stepCount := 2,
          replicaFailure := true }
        { PauseConditions := [{ Reason := PauseReasonCanaryPauseStep, StartTime := 0 }],
          ControllerPause := false, UpdatedReplicas := 1, AvailableReplicas := 1,
          CurrentStepIndex := some 1, ObservedGeneration := 3 } ≠ RolloutPhaseDegraded :=
  C8_paused_over_degraded _ _ rfl rfl (by simp) rfl

/-- C9: `IsPaused` is true if and only if the list of pause conditions is
    non-empty or the controller-pause flag is set. -/
theorem C9_isPaused_iff (st : RolloutStatus) :
    st.IsPaused = true ↔ st.PauseConditions ≠ [] ∨ st.ControllerPause = true := by
  unfold RolloutStatus.IsPaused
  simp [List.length_pos]

/-! ## A fraction of a second is dropped by the conversion -/

/-- The rounded quotient is at most half a unit above the quotient. -/
theorem roundHalfEven_le (num den : Nat) (hd : 0 < den) :
    2 * (F64.roundHalfEven num den * den) ≤ 2 * num + den := by
  unfold F64.roundHalfEven
  have hdm := Nat.div_add_mod num den
  have hcomm : den * (num / den) = num / den * den := Nat.mul_comm _ _
  simp only []
  split
  · omega
  · split
    · rw [Nat.add_mul]
      omega
    · split
      · omega
      · rw [Nat.add_mul]
        omega

/-- The binary exponent of a quotient below one is negative. -/
theorem ilog2Ratio_neg (p q : Nat) (hp : 0 < p) (hpq : p < q) :
    F64.ilog2Ratio p q ≤ -1 := by
  obtain ⟨a1, a2⟩ := ilog2Loop_spec p p hp (Nat.le_refl p)
  obtain ⟨b1, b2⟩ := ilog2Loop_spec q q (by omega) (Nat.le_refl q)
  have ha : F64.ilog2Loop p p = F64.ilog2 p := rfl
  have hb : F64.ilog2Loop q q = F64.ilog2 q := rfl
  rw [ha] at a1 a2
  rw [hb] at b1 b2
  have hab : F64.ilog2 p ≤ F64.ilog2 q := by
    by_contra hlt
    have : 2 ^ (F64.ilog2 q + 1) ≤ 2 ^ F64.ilog2 p :=
      Nat.pow_le_pow_right (by norm_num) (by omega)
    omega
  unfold F64.ilog2Ratio
  simp only []
  rcases Nat.eq_or_lt_of_le hab with heq | hlt
  · rw [heq]
    simp only [sub_self, le_refl, ↓reduceIte, Int.toNat_zero, pow_zero, Nat.mul_one]
    rw [if_neg (by omega)]
    omega
  · split <;> omega

/-- A quotient `p / q` with `c * p ≤ (c - 1) * q` rounds to a double
    `m * 2 ^ (-k)` that stays below one: `2 * c * m ≤ (2 * c - 1) * 2 ^ k`. -/
theorem roundMag_below_one (p q c : Nat) (hc53 : c + 1 ≤ 2 ^ 53) (hq : 0 < q)
    (hpq : (c + 1) * p ≤ c * q) :
    ∃ m k : Nat, F64.roundMag p q = F64.fin (m : Int) (-(k : Int))
      ∧ 2 * (c + 1) * m ≤ (2 * c + 1) * 2 ^ k := by
  rcases Nat.eq_zero_or_pos p with hp0 | hp
  · subst hp0
    exact ⟨0, 0, by simp [F64.roundMag], by simp⟩
  · have hlt : p < q := by
      by_contra hge
      have h1 : c * q ≤ c * p := Nat.mul_le_mul_left c (by omega)
      rw [Nat.add_mul] at hpq
      omega
    have he := ilog2Ratio_neg p q hp hlt
    generalize hue : max (F64.ilog2Ratio p q - 52) (-1074) = ue
    have hue1 : ue ≤ -53 := by omega
    obtain ⟨k, hk⟩ : ∃ k : Nat, ue = -(k : Int) := ⟨(-ue).toNat, by omega⟩
    have hk53 : 53 ≤ k := by omega
    have hT : c + 1 ≤ 2 ^ k :=
      le_trans hc53 (Nat.pow_le_pow_right (by norm_num) hk53)
    have hr := roundHalfEven_le (p * 2 ^ k) q hq
    generalize hm : F64.roundHalfEven (p * 2 ^ k) q = m at hr
    have hbound : 2 * (c + 1) * m ≤ (2 * c + 1) * 2 ^ k := by
      apply Nat.le_of_mul_le_mul_right _ hq
      have e1 := Nat.mul_le_mul_left (c + 1) hr
      have e2 := Nat.mul_le_mul_left (2 * 2 ^ k) hpq
      have e3 := Nat.mul_le_mul_left q hT
      nlinarith [e1, e2, e3]
    refine ⟨m, k, ?_, hbound⟩
    unfold F64.roundMag
    rw [if_neg (by omega)]
    simp only [hue, hk]
    have hneg : ¬ (0 ≤ -(k : Int)) := by omega
    have htn : (- -(k : Int)).toNat = k := by omega
    rw [if_neg hneg, htn, hm]
    have hlog : (F64.ilog2 m : Int) < 1024 + k := by
      rcases Nat.eq_zero_or_pos m with hm0 | hmpos
      · rw [hm0]
        have : F64.ilog2 0 = 0 := rfl
        rw [this]
        omega
      · obtain ⟨l1, _⟩ := ilog2Loop_spec m m hmpos (Nat.le_refl m)
        have hml : F64.ilog2Loop m m = F64.ilog2 m := rfl
        rw [hml] at l1
        have hmT : m < 2 ^ k := by
          by_contra hge
          have e4 := Nat.mul_le_mul_left (2 * (c + 1)) (Nat.le_of_not_lt hge)
          nlinarith [e4, hbound, Nat.pow_pos (n := k) (show 0 < 2 by norm_num)]
        have : F64.ilog2 m < k := by
          by_contra hge
          have : 2 ^ k ≤ 2 ^ F64.ilog2 m :=
            Nat.pow_le_pow_right (by norm_num) (by omega)
          omega
        omega
    rw [if_neg (by omega)]

/-- A dyadic value below one, given with the margin of `roundMag_below_one`,
    rounds to a double that is still below one. -/
theorem roundDyadic_below_one (m k c : Nat) (hc : 2 * c + 2 ≤ 2 ^ 53)
    (h : 2 * (c + 1) * m ≤ (2 * c + 1) * 2 ^ k) :
    ∃ m1 k1 : Nat, F64.roundDyadic (m : Int) (-(k : Int)) = F64.fin (m1 : Int) (-(k1 : Int))
      ∧ m1 < 2 ^ k1 := by
  have hpos : 0 < 2 ^ k := Nat.pow_pos (by norm_num)
  have hmul : (2 * c + 1 + 1) * m ≤ (2 * c + 1) * 2 ^ k := by
    have : 2 * c + 1 + 1 = 2 * (c + 1) := by ring
    rw [this]
    exact h
  obtain ⟨m1, k1, h1, h2⟩ := roundMag_below_one m (2 ^ k) (2 * c + 1) (by omega) hpos hmul
  have hlt : m1 < 2 ^ k1 := by
    by_contra hge
    have e := Nat.mul_le_mul_left (2 * (2 * c + 1 + 1)) (Nat.le_of_not_lt hge)
    have := Nat.pow_pos (n := k1) (show 0 < 2 by norm_num)
    nlinarith [e, h2, this]
  refine ⟨m1, k1, ?_, hlt⟩
  unfold F64.roundDyadic
  rcases Nat.eq_zero_or_pos k with hk0 | hkpos
  · subst hk0
    have hm0 : m = 0 := by
      simp only [pow_zero, Nat.mul_one] at h
      by_contra hne
      have : 1 ≤ m := Nat.one_le_iff_ne_zero.mpr hne
      have := Nat.mul_le_mul_left (2 * (c + 1)) this
      omega
    subst hm0
    simp only [pow_zero] at h1
    simp only [Nat.cast_zero, neg_zero, le_refl, ↓reduceIte, Int.toNat_zero, pow_zero,
      Int.mul_one]
    exact roundQ_natCast 0 1 _ _ h1
  · have hneg : ¬ (0 ≤ -(k : Int)) := by omega
    have htn : (- -(k : Int)).toNat = k := by omega
    rw [if_neg hneg, htn]
    exact roundQ_natCast m (2 ^ k) _ _ h1

/-- The integer part of a double below one is zero. -/
theorem trunc_below_one (m k : Nat) (h : m < 2 ^ k) :
    F64.trunc (m : Int) (-(k : Int)) = 0 := by
  unfold F64.trunc
  rcases Nat.eq_zero_or_pos k with hk0 | hkpos
  · subst hk0
    simp only [pow_zero, Nat.lt_one_iff] at h
    subst h
    simp
  · have hneg : ¬ (0 ≤ -(k : Int)) := by omega
    have htn : (- -(k : Int)).toNat = k := by omega
    rw [if_neg hneg, htn]
    have e : ((2 : Int) ^ k) = ((2 ^ k : Nat) : Int) := by push_cast; rfl
    rw [e]
    exact Int.tdiv_eq_zero_of_lt (by omega) (by exact_mod_cast h)

/-- The quotient of two positive doubles given by natural mantissas. -/
theorem div_natCast (m1 m2 : Nat) (e1 e2 : Int) (h2 : 0 < m2) :
    F64.div (F64.fin (m1 : Int) e1) (F64.fin (m2 : Int) e2)
      = if 0 ≤ e1 - e2 then F64.roundQ ((m1 * 2 ^ (e1 - e2).toNat : Nat) : Int) m2
        else F64.roundQ (m1 : Int) (m2 * 2 ^ (e2 - e1).toNat) := by
  unfold F64.div
  have hne : ¬ ((m2 : Int) = 0) := by omega
  have hnn : ¬ ((m2 : Int) < 0) := by omega
  simp only [hne, hnn, ↓reduceIte, Int.one_mul, Int.natAbs_ofNat]
  push_cast
  rfl

set_option maxRecDepth 100000 in
/-- The double of the constant `1e9`. -/
theorem ofInt_1e9 : F64.ofInt 1000000000 = F64.fin ((8388608000000000 : Nat) : Int) (-23) := by
  decide

/-- A duration below one second, `0 ≤ N < 10 ^ 9` nanoseconds, converts to
    `0`: `int32(d.Seconds())` drops the fraction. -/
theorem int32_seconds_subsecond (pf : Platform) (N : Nat) (hN : N < 1000000000) :
    int32OfF64 pf (time.Seconds (N : Int)) = 0 := by
  rcases Nat.eq_zero_or_pos N with h0 | h0
  · subst h0
    exact int32_seconds_zero pf
  · have hN52 : N < 2 ^ 52 := by
      have : (1000000000 : Nat) ≤ 2 ^ 52 := by norm_num
      omega
    obtain ⟨hL1, hL2⟩ := ilog2Loop_spec N N h0 (Nat.le_refl N)
    have hLdef : F64.ilog2Loop N N = F64.ilog2 N := rfl
    rw [hLdef] at hL1 hL2
    have hex := ofInt_exact N h0 hN52
    generalize F64.ilog2 N = L at hL1 hL2 hex
    have hL29 : L ≤ 29 := by
      by_contra hge
      have : 2 ^ 30 ≤ 2 ^ L := Nat.pow_le_pow_right (by norm_num) (by omega)
      have : (1000000000 : Nat) ≤ 2 ^ 30 := by norm_num
      omega
    have hsec : Int.tdiv (N : Int) 1000000000 = 0 :=
      Int.tdiv_eq_zero_of_lt (by omega) (by omega)
    have hnsec : Int.tmod (N : Int) 1000000000 = (N : Int) :=
      Int.tmod_eq_of_lt (by omega) (by omega)
    have hzero : F64.ofInt 0 = F64.fin 0 0 := by decide
    -- the quotient `float64(nsec) / 1e9`
    have hdiv : ∃ m k : Nat,
        F64.div (F64.fin ((N * 2 ^ (52 - L) : Nat) : Int) ((L : Int) - 52))
            (F64.fin ((8388608000000000 : Nat) : Int) (-23))
          = F64.fin (m : Int) (-(k : Int))
        ∧ 2 * (999999999 + 1) * m ≤ (2 * 999999999 + 1) * 2 ^ k := by
      rw [div_natCast _ _ _ _ (by norm_num)]
      have hX : 0 < 2 ^ (52 - L) := Nat.pow_pos (by norm_num)
      have hNX : N * 2 ^ (52 - L) ≤ 999999999 * 2 ^ (52 - L) :=
        Nat.mul_le_mul_right _ (by omega)
      have h23 : (2 : Nat) ^ 23 = 8388608 := by norm_num
      by_cases h29 : L = 29
      · subst h29
        have hc : (0 : Int) ≤ ((29 : Nat) : Int) - 52 - -23 := by norm_num
        rw [if_pos hc]
        have htn : (((29 : Nat) : Int) - 52 - -23).toNat = 0 := by norm_num
        rw [htn, pow_zero, Nat.mul_one]
        obtain ⟨m, k, e1, e2⟩ := roundMag_below_one (N * 2 ^ (52 - 29)) 8388608000000000
          999999999 (by norm_num) (by norm_num)
          (by
            have : (52 : Nat) - 29 = 23 := by norm_num
            rw [this, h23] at hNX ⊢
            omega)
        exact ⟨m, k, roundQ_natCast _ _ _ _ e1, e2⟩
      · have hc : ¬ ((0 : Int) ≤ (L : Int) - 52 - -23) := by omega
        rw [if_neg hc]
        have htn : ((-23 : Int) - ((L : Int) - 52)).toNat = 29 - L := by omega
        rw [htn]
        have hq : 8388608000000000 * 2 ^ (29 - L) = 1000000000 * 2 ^ (52 - L) := by
          have : 52 - L = 23 + (29 - L) := by omega
          rw [this, pow_add, h23]
          ring
        obtain ⟨m, k, e1, e2⟩ := roundMag_below_one (N * 2 ^ (52 - L))
          (8388608000000000 * 2 ^ (29 - L)) 999999999 (by norm_num)
          (Nat.mul_pos (by norm_num) (Nat.pow_pos (by norm_num)))
          (by rw [hq]; omega)
        exact ⟨m, k, roundQ_natCast _ _ _ _ e1, e2⟩
    obtain ⟨m, k, hd1, hd2⟩ := hdiv
    obtain ⟨m1, k1, hr1, hr2⟩ := roundDyadic_below_one m k 999999999 (by norm_num) hd2
    have hadd : F64.add (F64.fin 0 0) (F64.fin (m : Int) (-(k : Int)))
        = F64.fin (m1 : Int) (-(k1 : Int)) := by
      unfold F64.add
      have hmin : min (0 : Int) (-(k : Int)) = -(k : Int) := by omega
      simp only [hmin, Int.zero_mul, Int.zero_add, sub_self, Int.toNat_zero, pow_zero,
        Int.mul_one]
      exact hr1
    unfold time.Seconds
    simp only [hsec, hnsec, hzero, hex, ofInt_1e9, hd1, hadd]
    unfold int32OfF64
    simp only [trunc_below_one m1 k1 hr2]
    rfl

/-- C11: for every `n` with `1 ≤ n ≤ 999` the string `n` followed by "ms"
    is a valid non-zero duration of `n` milliseconds and resolves to `0`,
    the same result as an absent duration. -/
theorem C11_milliseconds_collapse_to_zero (pf : Platform) (n : Nat)
    (h1 : 1 ≤ n) (h2 : n ≤ 999) :
    (time.ParseDuration pf (FormatUint n ++ ascii "ms") = some ((n * 1000000 : Nat) : Int)
        ∧ (0 : Int) < ((n * 1000000 : Nat) : Int))
      ∧ RolloutPause.DurationSeconds pf
          { Duration := DurationFromString (FormatUint n ++ ascii "ms") } = 0
      ∧ RolloutPause.DurationSeconds pf
          { Duration := DurationFromString (FormatUint n ++ ascii "ms") }
        = RolloutPause.DurationSeconds pf { Duration := none } := by
  have e : ascii "ms" = [109, 115] := by decide
  have h63 : (2 : Nat) ^ 63 = 9223372036854775808 := by norm_num
  have hi := parseInt_digits_then_bad_byte (FormatUint n) (formatUint_ne_nil n)
    (formatUint_digits n) 109 [115] (by decide)
  have hpd := parseDuration_digits_unit pf (FormatUint n) [109, 115] 1000000
    (formatUint_ne_nil n) (formatUint_digits n) (by decide) (by simp) (by decide)
    (by omega) (by rw [decimalValue_formatUint]; omega)
  rw [decimalValue_formatUint] at hpd
  have hds : RolloutPause.DurationSeconds pf
      { Duration := DurationFromString (FormatUint n ++ [109, 115]) } = 0 := by
    unfold DurationFromString
    rw [durationSeconds_string_duration pf _ rfl hi]
    simp only [intstr.FromString, hpd]
    exact int32_seconds_subsecond pf (n * 1000000) (by omega)
  rw [e]
  refine ⟨⟨hpd, by omega⟩, hds, ?_⟩
  rw [hds, durationSeconds_nil]

/-- Witness for C11: "500ms" is a duration of 500 milliseconds and resolves
    to `0`, as an absent duration does. -/
theorem C11_witness :
    (time.ParseDuration Platform.indefinite (ascii "500ms") = some ((500 * 1000000 : Nat) : Int)
        ∧ (0 : Int) < ((500 * 1000000 : Nat) : Int))
      ∧ RolloutPause.DurationSeconds Platform.indefinite
          { Duration := DurationFromString (ascii "500ms") } = 0
      ∧ RolloutPause.DurationSeconds Platform.indefinite
          { Duration := DurationFromString (ascii "500ms") }
        = RolloutPause.DurationSeconds Platform.indefinite { Duration := none } :=
  C11_milliseconds_collapse_to_zero Platform.indefinite 500 (by decide) (by decide)

/-! ## Theorems: `RolloutSpec.EmptyTemplate` -/

/-- C12: `EmptyTemplate` is true if and only if the pod template's metadata
    has no labels and no annotations, and two specs whose templates agree on
    labels and annotations get the same answer, whatever their pod specs,
    names and `TemplateResolvedFromRef` are. -/
theorem C12_emptyTemplate_iff :
    (∀ s : RolloutSpec, s.EmptyTemplate = true
        ↔ s.Template.ObjectMeta.Labels = [] ∧ s.Template.ObjectMeta.Annotations = [])
      ∧ (∀ s t : RolloutSpec,
          s.Template.ObjectMeta.Labels = t.Template.ObjectMeta.Labels →
          s.Template.ObjectMeta.Annotations = t.Template.ObjectMeta.Annotations →
          s.EmptyTemplate = t.EmptyTemplate) := by
  constructor
  · intro s
    unfold RolloutSpec.EmptyTemplate
    cases hl : s.Template.ObjectMeta.Labels with
    | nil =>
      cases ha : s.Template.ObjectMeta.Annotations with
      | nil => simp
      | cons a as => simp
    | cons l ls => simp
  · intro s t hl ha
    unfold RolloutSpec.EmptyTemplate
    rw [hl, ha]

/-- Witness for C12: a template with a name and a container but no labels
    and no annotations is reported empty, with `TemplateResolvedFromRef` set
    or not. -/
theorem C12_witness :
    RolloutSpec.EmptyTemplate
        { TemplateResolvedFromRef := false, SelectorResolvedFromRef := false,
          Replicas := some 3, Selector := none,
          Template :=
            { ObjectMeta := { Name := ascii "web", GenerateName := [], Namespace := [],
                              Labels := [], Annotations := [] },
              Spec := { Containers := [{ Name := ascii "app", Image := ascii "nginx" }] } },
          MinReadySeconds := 0, StrategyCanary := true, RevisionHistoryLimit := none,
          Paused := false } = true
      ∧ RolloutSpec.EmptyTemplate
        { TemplateResolvedFromRef := false, SelectorResolvedFromRef := false,
          Replicas := some 3, Selector := none,
          Template :=
            { ObjectMeta := { Name := ascii "web", GenerateName := [], Namespace := [],
                              Labels := [], Annotations := [] },
              Spec := { Containers := [{ Name := ascii "app", Image := ascii "nginx" }] } },
          MinReadySeconds := 0, StrategyCanary := true, RevisionHistoryLimit := none,
          Paused := false }
      = RolloutSpec.EmptyTemplate
        { TemplateResolvedFromRef := true, SelectorResolvedFromRef := false,
          Replicas := none, Selector := none,
          Template :=
            { ObjectMeta := { Name := [], GenerateName := [], Namespace := [],
                              Labels := [], Annotations := [] },
              Spec := { Containers := [] } },
          MinReadySeconds := 0, StrategyCanary := false, RevisionHistoryLimit := none,
          Paused := false } :=
  ⟨(C12_emptyTemplate_iff.1 _).mpr ⟨rfl, rfl⟩, C12_emptyTemplate_iff.2 _ _ rfl rfl⟩

end v1alpha1

